import Mathlib

/-!
Verification of the prompt variable resolution engine of the `nosh` shell
(`src/plugins/mod.rs` and `src/plugins/loader.rs`).

The Rust code is shallowly embedded:

* `HashMap` becomes an association list with replacing insertion
  (`mapInsert`), whose keys stay distinct when built through `mapInsert`.
* `tokio::time::Instant` becomes a `Nat` (milliseconds since an arbitrary
  origin); `Duration` becomes a `Nat` of milliseconds.
* The asynchronous fetch tasks spawned by `spawn_variable_task` become
  explicit `Fetch` records carried in the engine state.  A fetch spawned at
  time `s` whose command takes `duration` milliseconds completes at
  `s + duration`; completions are applied to the shared cache and to the
  running-task registry by `flushUpto`, which a resolution step runs before
  every read of the shared state (this plays the role of the concurrent
  task bodies reaching their cache-write/deregister section).
* Command execution itself (a subprocess) is an oracle: a `FetchSpec`
  assigns each key the wall-clock duration of its command and its raw
  standard output (`none` models a spawn failure).  The transform pipeline
  applied to that output is embedded faithfully (`applyTransform`).
* The `f64` arithmetic inside `parse_duration` is modelled exactly over
  integers: the numeric literal accepted by the Rust code consists of
  decimal digits and dots only, and the truncating `as u64` cast becomes
  integer division.  The claims under study only exercise values on which
  IEEE double rounding is exact.
-/

/-! ## Association-list maps (embedding of `std::collections::HashMap`) -/

/-- Lookup in an association list; mirrors `HashMap::get`. -/
def lookup {β : Type} : List (String × β) → String → Option β
  | [], _ => none
  | e :: es, k => if e.1 = k then some e.2 else lookup es k

/-- Remove every binding of a key; helper for replacing insertion. -/
def mapErase {β : Type} : List (String × β) → String → List (String × β)
  | [], _ => []
  | e :: es, k => if e.1 = k then mapErase es k else e :: mapErase es k

/-- Replacing insertion; mirrors `HashMap::insert`. -/
def mapInsert {β : Type} (m : List (String × β)) (k : String) (v : β) :
    List (String × β) :=
  (k, v) :: mapErase m k

/-! ## Character-level string helpers

The core `String.trim`, `String.toLower` and `String.splitOn` are defined by
well-founded recursion over byte positions and do not evaluate inside the
kernel, so the same operations are re-defined here structurally over
character lists.  `Char.isWhitespace` covers the ASCII whitespace the shell
inputs contain, and `Char.toLower` is the same character map the core
`String.toLower` uses. -/

/-- Drop leading and trailing whitespace; embedding of `str::trim`. -/
def trimChars (cs : List Char) : List Char :=
  (((cs.dropWhile Char.isWhitespace).reverse).dropWhile Char.isWhitespace).reverse

/-- String-level trim built on `trimChars`. -/
def strTrim (s : String) : String :=
  String.mk (trimChars s.toList)

/-- Lowercase every character; embedding of `str::to_lowercase`. -/
def strLower (s : String) : String :=
  String.mk (s.toList.map Char.toLower)

/-! ## Duration and cache-policy parsing (`src/plugins/mod.rs`) -/

/-- Value of a list of decimal digit characters, most significant first. -/
def digitsToNat (cs : List Char) : Nat :=
  cs.foldl (fun a c => a * 10 + (c.toNat - 48)) 0

/-- Parse the numeric literal of `parse_duration`.  The Rust code hands the
longest prefix of digits-or-dots to `f64::from_str`, which succeeds exactly
when the string holds at least one digit and at most one dot.  The value
`i + f / 10 ^ l` is returned as the triple `(i, f, l)` (integer part,
fraction numerator, fraction length), representing the number exactly. -/
def parseDecimal (cs : List Char) : Option (Nat × Nat × Nat) :=
  if !cs.any (fun c => c.isDigit) then none
  else if 2 ≤ (cs.filter (fun c => c = '.')).length then none
  else
    let ip := cs.takeWhile (fun c => c ≠ '.')
    let fp := (cs.dropWhile (fun c => c ≠ '.')).drop 1
    some (digitsToNat ip, digitsToNat fp, fp.length)

/-- Numeric prefix handed to the float parser by `parse_duration`. -/
def numPart (s : String) : List Char :=
  (trimChars s.toList).takeWhile (fun c => c.isDigit || c = '.')

/-- Unit suffix of `parse_duration`, trimmed and lowercased as in the code. -/
def unitPart (s : String) : String :=
  strLower (String.mk (trimChars
    ((trimChars s.toList).dropWhile (fun c => c.isDigit || c = '.'))))

/-- Millisecond multiplier of a unit suffix; `none` for unknown units. -/
def unitMult (u : String) : Option Nat :=
  if u = "" ∨ u = "ms" then some 1
  else if u = "s" then some 1000
  else if u = "m" then some 60000
  else if u = "h" then some 3600000
  else none

/-- Embedding of `parse_duration` (`src/plugins/mod.rs:57`): result in
milliseconds.  `(num * multiplier) as u64` truncates toward zero, which for
the exact value `(i + f / 10 ^ l) * mult` is `i * mult + f * mult / 10 ^ l`
with natural division. -/
def parseDuration (s : String) : Option Nat :=
  match parseDecimal (numPart s) with
  | none => none
  | some (i, f, l) =>
    match unitMult (unitPart s) with
    | none => none
    | some mult => some (i * mult + f * mult / 10 ^ l)

/-- Cache policy (`CacheDuration` in `src/plugins/mod.rs`). -/
inductive CacheDuration where
  | always
  | never
  | duration (d : Nat)
deriving DecidableEq, Repr

/-- Embedding of `CacheDuration::parse`. -/
def cacheDurationParse (s : String) : Option CacheDuration :=
  if strLower (strTrim s) = "always" then some .always
  else if strLower (strTrim s) = "never" then some .never
  else (parseDuration s).map .duration

/-! ## Plugin data model (`src/plugins/mod.rs`) -/

/-- Plugin metadata (`PluginMeta`). -/
structure PluginMeta where
  name : String
  description : String
deriving DecidableEq, Repr

/-- How a variable is provided (`VariableProvider`). -/
inductive VariableProvider where
  | command (command : String) (transform : Option String)
      (timeout : Option String) (cache : Option String)
  | internal (source : String)
deriving DecidableEq, Repr

/-- A loaded plugin (`Plugin`); `config` values are modelled by their
`as_integer()` view, the only one the loader reads. -/
structure Plugin where
  plugin : PluginMeta
  provides : List (String × VariableProvider)
  icons : List (String × String)
  config : List (String × Int)
deriving DecidableEq, Repr

/-! ## Transform pipeline (`execute_provider_async`, loader.rs:732) -/

/-- Transform applied to the trimmed stdout of a command provider; the body
of the `match transform.as_deref()` in `execute_provider_async`. -/
def applyTransform (plugin : Plugin) (varName : String)
    (transform : Option String) (stdout : String) : Option String :=
  match transform with
  | some t =>
    if t = "non_empty" then
      if stdout = "" then lookup plugin.icons "clean"
      else lookup plugin.icons "dirty"
    else if t = "with_icon" then
      if stdout = "" then none
      else
        match lookup plugin.icons varName with
        | some icon => some (icon ++ " " ++ stdout)
        | none => some stdout
    else some stdout
  | none => some stdout

/-- Embedding of `execute_provider_async`: `rawOutput` is the oracle for the
subprocess standard output (`none` models `.output().await.ok()?` failing);
the code trims it and applies the transform.  Internal providers always
yield `none` on this path. -/
def executeProviderAsync (plugin : Plugin) (varName : String)
    (pr : VariableProvider) (rawOutput : Option String) : Option String :=
  match pr with
  | .command _ transform _ _ =>
    match rawOutput with
    | none => none
    | some out => applyTransform plugin varName transform (strTrim out)
  | .internal _ => none


/-! ## Engine constants (loader.rs:21-27) -/

/-- `SOFT_TIMEOUT`: 100 ms. -/
def softTimeout : Nat := 100

/-- `HARD_TIMEOUT`: 5 s. -/
def hardTimeout : Nat := 5000

/-- `CACHE_DURATION`: default TTL of 500 ms. -/
def cacheDurationDefault : Nat := 500

/-! ## Engine state -/

/-- Cache entry (`CacheEntry`): value plus optional absolute expiry. -/
structure CacheEntry where
  value : String
  expiresAt : Option Nat
deriving DecidableEq, Repr

/-- Registry entry (`RunningTask`): start time plus the identity of the
spawned fetch, standing in for the `JoinHandle`. -/
structure RunningTask where
  startedAt : Nat
  taskId : Nat
deriving DecidableEq, Repr

/-- One spawned fetch task.  `result` is the value the task body will hand
back (command output already passed through the transform pipeline);
`policy` is the cache policy captured at spawn time.  The task reaches its
cache-write/deregister section at `spawnedAt + duration`. -/
structure Fetch where
  id : Nat
  key : String
  spawnedAt : Nat
  duration : Nat
  result : Option String
  policy : CacheDuration
deriving DecidableEq, Repr

/-- Shared mutable state of the plugin manager: the value cache, the
running-task registry, and the set of spawned-but-unfinished fetches. -/
structure EngineState where
  cache : List (String × CacheEntry)
  running : List (String × RunningTask)
  pending : List Fetch
  nextId : Nat
deriving DecidableEq, Repr

/-- Oracle for one command execution: how long the subprocess runs and what
raw standard output it produces (`none` = spawn failure). -/
structure FetchSpec where
  duration : Nat
  rawOutput : Option String

/-- Immutable part of `PluginManager`: the loaded plugins and the recorded
duration of the last foreground command (milliseconds). -/
structure PluginManager where
  plugins : List (String × Plugin)
  lastCommandDuration : Option Nat

/-! ## Key helpers (loader.rs:239-304) -/

/-- Mirror of the `key.split(':')` / `parts.len() == 2` prelude used
throughout the loader. -/
def splitKey (key : String) : Option (String × String) :=
  if (key.toList.filter (fun c => c = ':')).length = 1 then
    some (String.mk (key.toList.takeWhile (fun c => c ≠ ':')),
          String.mk ((key.toList.dropWhile (fun c => c ≠ ':')).drop 1))
  else none

/-- Embedding of `get_variable_timeout`: explicit parseable timeout of a
command provider, otherwise the 100 ms soft timeout. -/
def getVariableTimeout (pm : PluginManager) (key : String) : Nat :=
  match splitKey key with
  | none => softTimeout
  | some (pn, vn) =>
    match lookup pm.plugins pn with
    | none => softTimeout
    | some plugin =>
      match lookup plugin.provides vn with
      | some (.command _ _ (some tstr) _) => (parseDuration tstr).getD softTimeout
      | _ => softTimeout

/-- Embedding of `get_variable_cache_duration`: explicit parseable cache
policy of a command provider, otherwise a 500 ms TTL. -/
def getVariableCacheDuration (pm : PluginManager) (key : String) : CacheDuration :=
  match splitKey key with
  | none => .duration cacheDurationDefault
  | some (pn, vn) =>
    match lookup pm.plugins pn with
    | none => .duration cacheDurationDefault
    | some plugin =>
      match lookup plugin.provides vn with
      | some (.command _ _ _ (some cstr)) =>
        (cacheDurationParse cstr).getD (.duration cacheDurationDefault)
      | _ => .duration cacheDurationDefault

/-- Embedding of `is_internal_variable`. -/
def isInternalVariable (pm : PluginManager) (key : String) : Bool :=
  match splitKey key with
  | none => false
  | some (pn, vn) =>
    if pn = "context" ∨ pn = "builtins/context" then true
    else
      match lookup pm.plugins pn with
      | none => false
      | some plugin =>
        match lookup plugin.provides vn with
        | some (.internal _) => true
        | _ => false

/-- Embedding of `format_duration` (loader.rs:780). -/
def formatDuration (ms : Nat) : String :=
  let secs := ms / 1000
  let sub := ms % 1000
  if 60 ≤ secs then
    toString (secs / 60) ++ "m" ++ toString (secs % 60) ++ "s"
  else if 0 < secs then
    toString secs ++ "." ++ toString (sub / 100) ++ "s"
  else
    toString sub ++ "ms"

/-- Embedding of `get_internal_variable`.  The `context` plugin delegates to
the separately cached `nosh-context` library, whose filesystem probing is
abstracted by the oracle `ctx`.  The `min_ms` config value goes through the
wrapping `as u64` cast of the code. -/
def getInternalVariable (pm : PluginManager) (ctx : String → Option String)
    (key : String) : Option String :=
  match splitKey key with
  | none => none
  | some (pn, vn) =>
    if pn = "context" ∨ pn = "builtins/context" then ctx vn
    else
      match lookup pm.plugins pn with
      | none => none
      | some plugin =>
        match lookup plugin.provides vn with
        | none => none
        | some (.command _ _ _ _) => none
        | some (.internal source) =>
          if source = "internal" ∧ (vn = "duration" ∨ vn = "took") then
            match pm.lastCommandDuration with
            | none => none
            | some ms =>
              let minMs := ((((lookup plugin.config "min_ms").getD 500) %
                (2 ^ 64 : Int))).toNat
              if minMs ≤ ms then
                if vn = "took" then some ("took " ++ formatDuration ms)
                else some (formatDuration ms)
              else none
          else none

/-! ## Fetch completion (task body of `spawn_variable_task`, loader.rs:431) -/

/-- Expiry stored by a completing fetch: `always` expires at the completion
instant itself, `never` stores no expiry, a TTL adds itself to the
completion instant. -/
def cacheExpiry (policy : CacheDuration) (completedAt : Nat) : Option Nat :=
  match policy with
  | .always => some completedAt
  | .never => none
  | .duration d => some (completedAt + d)

/-- What one fetch task does when it reaches the end of its body: on a
`some` result it writes its cache entry and deregisters, on `none` it only
deregisters. -/
def applyCompletion (f : Fetch) (cache : List (String × CacheEntry))
    (running : List (String × RunningTask)) :
    List (String × CacheEntry) × List (String × RunningTask) :=
  match f.result with
  | some v =>
    (mapInsert cache f.key ⟨v, cacheExpiry f.policy (f.spawnedAt + f.duration)⟩,
     mapErase running f.key)
  | none => (cache, mapErase running f.key)

/-- Insert a fetch into a list sorted by completion instant. -/
def insertByCompletion (f : Fetch) : List Fetch → List Fetch
  | [] => [f]
  | g :: gs =>
    if f.spawnedAt + f.duration < g.spawnedAt + g.duration then f :: g :: gs
    else g :: insertByCompletion f gs

/-- Sort fetches by completion instant (ties in unspecified order; equal
completion instants are a real race in the code). -/
def sortByCompletion (fs : List Fetch) : List Fetch :=
  fs.foldr insertByCompletion []

/-- Apply every pending fetch that completes strictly before instant `t`,
in completion order: each one runs its cache-write/deregister section.
This realises, at the points where the driver re-reads the shared state,
everything the concurrently running task bodies have done so far. -/
def flushUpto (t : Nat) (st : EngineState) : EngineState :=
  let done := sortByCompletion
    (st.pending.filter (fun f => decide (f.spawnedAt + f.duration < t)))
  let rest := st.pending.filter (fun f => !decide (f.spawnedAt + f.duration < t))
  let cr := done.foldl
    (fun (p : List (String × CacheEntry) × List (String × RunningTask)) f =>
      applyCompletion f p.1 p.2)
    (st.cache, st.running)
  { cache := cr.1, running := cr.2, pending := rest, nextId := st.nextId }

/-! ## Stale-task reaping (`cleanup_stale_tasks`, loader.rs:496) -/

/-- Embedding of `cleanup_stale_tasks`: every registry entry older than the
hard timeout is removed and its task aborted (the abort kills the fetch, so
its pending record disappears and it never writes the cache). -/
def cleanupStaleTasks (now : Nat) (st : EngineState) : EngineState :=
  let staleKeys := (st.running.filter
    (fun e => decide (hardTimeout < now - e.2.startedAt))).map (fun e => e.1)
  let staleIds := (st.running.filter
    (fun e => decide (hardTimeout < now - e.2.startedAt))).map (fun e => e.2.taskId)
  { st with
    running := st.running.filter (fun e => !staleKeys.contains e.1),
    pending := st.pending.filter (fun f => !staleIds.contains f.id) }

/-! ## Spawning (`spawn_variable_task`, loader.rs:402) -/

/-- Embedding of `spawn_variable_task`: silently does nothing when the key
is malformed or no provider exists; otherwise creates the fetch (command
result already determined by the oracle plus the transform pipeline) and
registers it in the running-task registry. -/
def spawnVariableTask (pm : PluginManager) (env : String → FetchSpec)
    (now : Nat) (st : EngineState) (key : String) : EngineState :=
  match splitKey key with
  | none => st
  | some (pn, vn) =>
    match lookup pm.plugins pn with
    | none => st
    | some plugin =>
      match lookup plugin.provides vn with
      | none => st
      | some provider =>
        { st with
          pending := st.pending ++
            [⟨st.nextId, key, now, (env key).duration,
              executeProviderAsync plugin vn provider (env key).rawOutput,
              getVariableCacheDuration pm key⟩],
          running := mapInsert st.running key ⟨now, st.nextId⟩,
          nextId := st.nextId + 1 }

/-! ## Plugin loading (`load_from_directory`, loader.rs:97) -/

/-- One raw provider entry of a plugin TOML file; `parsed = none` models an
entry that does not deserialize into either `VariableProvider` shape. -/
structure RawProviderEntry where
  name : String
  parsed : Option VariableProvider
deriving DecidableEq, Repr

/-- One directory entry as the loader sees it: the path extension, whether
`fs::read_to_string` succeeds, and the shape of the TOML content. -/
structure PluginFile where
  ext : String
  readable : Bool
  meta : Option PluginMeta
  entries : List RawProviderEntry
  icons : List (String × String)
  config : List (String × Int)
deriving DecidableEq, Repr

/-- Embedding of `load_plugin` (read + `toml::from_str::<Plugin>`).  Serde
deserialization of the whole `Plugin` is all-or-nothing: a missing or
malformed `plugin` table, or any provider entry that fails to deserialize,
fails the whole file. -/
def parsePluginFile (f : PluginFile) : Option Plugin :=
  if !f.readable then none
  else
    match f.meta with
    | none => none
    | some m =>
      if f.entries.any (fun e => e.parsed.isNone) then none
      else some ⟨m, f.entries.filterMap (fun e => e.parsed.map fun p => (e.name, p)),
                 f.icons, f.config⟩

/-- Embedding of `load_from_directory`: every `.toml` entry that parses is
registered (under a package-qualified name when `pkgName` is given);
entries that fail to parse are skipped. -/
def loadFromDirectory (plugins : List (String × Plugin)) (files : List PluginFile)
    (pkgName : Option String) : List (String × Plugin) :=
  files.foldl
    (fun acc f =>
      if f.ext = "toml" then
        match parsePluginFile f with
        | some p =>
          let name := match pkgName with
            | some pkg => pkg ++ "/" ++ p.plugin.name
            | none => p.plugin.name
          mapInsert acc name { p with plugin := { p.plugin with name := name } }
        | none => acc
      else acc)
    plugins

/-! ## Phase 1: classification (`get_variables`, loader.rs:145-190) -/

/-- Validity check of a cache entry: no expiry means never expires, an
expiry is valid while it lies strictly in the future. -/
def cacheEntryValid (e : CacheEntry) (now : Nat) : Bool :=
  match e.expiresAt with
  | none => true
  | some expires => decide (now < expires)

/-- Accumulator of the phase-1 loop: the early results, the keys to spawn
with their timeouts, and the internal keys set aside. -/
structure ClassifyOut where
  results : List (String × String)
  toSpawn : List (String × Nat)
  internalKeys : List String
deriving DecidableEq, Repr

/-- One iteration of the phase-1 loop over the requested keys. -/
def classifyStep (pm : PluginManager) (cache : List (String × CacheEntry))
    (running : List (String × RunningTask)) (now : Nat)
    (acc : ClassifyOut) (key : String) : ClassifyOut :=
  if isInternalVariable pm key then
    { acc with internalKeys := acc.internalKeys ++ [key] }
  else if (lookup running key).isSome then
    match lookup cache key with
    | some e => { acc with results := mapInsert acc.results key e.value }
    | none => acc
  else
    match lookup cache key with
    | some e =>
      if cacheEntryValid e now then
        { acc with results := mapInsert acc.results key e.value }
      else
        { acc with toSpawn := acc.toSpawn ++ [(key, getVariableTimeout pm key)] }
    | none =>
      { acc with toSpawn := acc.toSpawn ++ [(key, getVariableTimeout pm key)] }

/-- Phase 1 of `get_variables` over the whole key list. -/
def classifyKeys (pm : PluginManager) (cache : List (String × CacheEntry))
    (running : List (String × RunningTask)) (now : Nat)
    (keys : List String) : ClassifyOut :=
  keys.foldl (classifyStep pm cache running now) ⟨[], [], []⟩

/-- The fate of one key under classification, read off the same conditions
`classifyStep` tests; used to state theorems about the loop. -/
inductive KeyFate where
  | internal
  | inflight (cached : Option String)
  | cachedHit (v : String)
  | scheduled (timeout : Nat)
deriving DecidableEq, Repr

/-- Classifier of a single key, equivalent to one `classifyStep`. -/
def keyFate (pm : PluginManager) (cache : List (String × CacheEntry))
    (running : List (String × RunningTask)) (now : Nat) (key : String) : KeyFate :=
  if isInternalVariable pm key then .internal
  else if (lookup running key).isSome then
    .inflight ((lookup cache key).map (fun e => e.value))
  else
    match lookup cache key with
    | some e =>
      if cacheEntryValid e now then .cachedHit e.value
      else .scheduled (getVariableTimeout pm key)
    | none => .scheduled (getVariableTimeout pm key)

/-- Value inserted into the result map by the phase-1 classification of one
key, when any. -/
def classifyValue (pm : PluginManager) (cache : List (String × CacheEntry))
    (running : List (String × RunningTask)) (now : Nat) (key : String) :
    Option String :=
  match keyFate pm cache running now key with
  | .inflight (some v) => some v
  | .cachedHit v => some v
  | _ => none

/-! ## Phase 3: bounded waiting (`get_variables`, loader.rs:197-234) -/

/-- Maximum non-zero per-key timeout of the scheduled batch, the soft
timeout when every scheduled key is fire-and-forget (loader.rs:199-205). -/
def maxNonzeroTimeout (ts : List (String × Nat)) : Nat :=
  let nz := (ts.map (fun kt => kt.2)).filter (fun t => decide (t ≠ 0))
  if nz.isEmpty then softTimeout else nz.foldl Nat.max 0

/-- Best cached value for a fallback read: the cached string or "". -/
def cacheOrEmpty (cache : List (String × CacheEntry)) (key : String) : String :=
  ((lookup cache key).map (fun e => e.value)).getD ""

/-- The fetch a registry handle points at. -/
def findFetchById (pending : List Fetch) (id : Nat) : Option Fetch :=
  pending.find? (fun f => f.id == id)

/-- Remove the registry entry of a key, as `try_get_result` does before
awaiting the handle (loader.rs:471-474); on a wait timeout the entry is
never put back. -/
def consumeRunning (key : String) (st : EngineState) : EngineState :=
  { st with running := mapErase st.running key }

/-- A fetch observed to complete during a wait: its body runs (cache write
on success, deregistration) and it leaves the pending set. -/
def finishFetch (f : Fetch) (st : EngineState) : EngineState :=
  { st with
    cache := (applyCompletion f st.cache st.running).1,
    running := (applyCompletion f st.cache st.running).2,
    pending := st.pending.filter (fun g => g.id != f.id) }

/-- Accumulator of the phase-3 loop: shared state, current instant, and the
result map under construction. -/
structure WaitAcc where
  st : EngineState
  time : Nat
  results : List (String × String)

/-- One iteration of the phase-3 loop for a scheduled key `kt`.

* timeout `0`: fire-and-forget — no wait, the current cache (or "") answers;
* shared deadline already passed: same fallback without waiting;
* otherwise `try_get_result` with the remaining budget: the registry entry
  is consumed; if the fetch it points at completes within the budget the
  driver waits exactly until that completion and uses the fresh result
  (falling back to the cache when the task produced `none`); if not, the
  driver waits out the whole remaining budget and falls back to the cache,
  leaving the fetch running.  A missing registry entry means the task
  already completed and deregistered itself: its cached value (or "")
  answers immediately. -/
def phase3Step (deadline : Nat) (acc : WaitAcc) (kt : String × Nat) : WaitAcc :=
  if kt.2 = 0 then
    ⟨flushUpto acc.time acc.st, acc.time,
      mapInsert acc.results kt.1
        (cacheOrEmpty (flushUpto acc.time acc.st).cache kt.1)⟩
  else if deadline - acc.time = 0 then
    ⟨flushUpto acc.time acc.st, acc.time,
      mapInsert acc.results kt.1
        (cacheOrEmpty (flushUpto acc.time acc.st).cache kt.1)⟩
  else
    match lookup (flushUpto acc.time acc.st).running kt.1 with
    | none =>
      ⟨flushUpto acc.time acc.st, acc.time,
        mapInsert acc.results kt.1
          (cacheOrEmpty (flushUpto acc.time acc.st).cache kt.1)⟩
    | some rt =>
      match findFetchById (flushUpto acc.time acc.st).pending rt.taskId with
      | none =>
        ⟨consumeRunning kt.1 (flushUpto acc.time acc.st), acc.time,
          mapInsert acc.results kt.1
            (cacheOrEmpty (flushUpto acc.time acc.st).cache kt.1)⟩
      | some f =>
        if f.spawnedAt + f.duration - acc.time ≤ deadline - acc.time then
          match f.result with
          | some v =>
            ⟨finishFetch f (flushUpto (f.spawnedAt + f.duration)
                (consumeRunning kt.1 (flushUpto acc.time acc.st))),
              f.spawnedAt + f.duration, mapInsert acc.results kt.1 v⟩
          | none =>
            ⟨finishFetch f (flushUpto (f.spawnedAt + f.duration)
                (consumeRunning kt.1 (flushUpto acc.time acc.st))),
              f.spawnedAt + f.duration,
              mapInsert acc.results kt.1
                (cacheOrEmpty (finishFetch f (flushUpto (f.spawnedAt + f.duration)
                  (consumeRunning kt.1 (flushUpto acc.time acc.st)))).cache kt.1)⟩
        else
          ⟨flushUpto (acc.time + (deadline - acc.time))
              (consumeRunning kt.1 (flushUpto acc.time acc.st)),
            acc.time + (deadline - acc.time),
            mapInsert acc.results kt.1
              (cacheOrEmpty (flushUpto (acc.time + (deadline - acc.time))
                (consumeRunning kt.1 (flushUpto acc.time acc.st))).cache kt.1)⟩

/-- Phase 3 over the whole scheduled batch. -/
def phase3 (deadline : Nat) (toSpawn : List (String × Nat)) (st : EngineState)
    (t0 : Nat) (results : List (String × String)) : WaitAcc :=
  toSpawn.foldl (phase3Step deadline) ⟨st, t0, results⟩

/-! ## `get_variables` (loader.rs:137-237) -/

/-- Observable outcome of one `get_variables` call: the returned map, the
shared state left behind, the instant at which the call returns, and the
keys it scheduled for fetching (`tasks_to_spawn`). -/
structure ResolveOut where
  results : List (String × String)
  st : EngineState
  endTime : Nat
  spawned : List String

/-- Shared state as the classification loop sees it: completions so far
applied, stale tasks reaped. -/
def resolveState (st0 : EngineState) (now : Nat) : EngineState :=
  cleanupStaleTasks now (flushUpto now st0)

/-- Phase 1 of a `get_variables` call entered at `now` on state `st0`. -/
def classifyOf (pm : PluginManager) (st0 : EngineState) (now : Nat)
    (keys : List String) : ClassifyOut :=
  classifyKeys pm (resolveState st0 now).cache (resolveState st0 now).running now keys

/-- Result map after the synchronous internal-variable pass
(loader.rs:185-190). -/
def resultsAfterInternal (pm : PluginManager) (ctx : String → Option String)
    (co : ClassifyOut) : List (String × String) :=
  co.internalKeys.foldl
    (fun r k =>
      match getInternalVariable pm ctx k with
      | some v => mapInsert r k v
      | none => r)
    co.results

/-- Shared state after phase 2 spawned one fetch per scheduled key. -/
def stateAfterSpawn (pm : PluginManager) (env : String → FetchSpec)
    (st0 : EngineState) (now : Nat) (keys : List String) : EngineState :=
  (classifyOf pm st0 now keys).toSpawn.foldl
    (fun s kt => spawnVariableTask pm env now s kt.1) (resolveState st0 now)

/-- Embedding of `PluginManager::get_variables`, entered at instant `now`:
reap stale tasks, classify every requested key, resolve internal keys
synchronously, spawn a fetch per scheduled key, then wait for the scheduled
keys under one shared deadline.  Pending fetch completions are applied
("flushed") whenever the driver re-reads the shared state. -/
def getVariables (pm : PluginManager) (ctx : String → Option String)
    (env : String → FetchSpec) (st0 : EngineState) (now : Nat)
    (keys : List String) : ResolveOut :=
  let co := classifyOf pm st0 now keys
  let w := phase3 (now + maxNonzeroTimeout co.toSpawn) co.toSpawn
    (stateAfterSpawn pm env st0 now keys) now (resultsAfterInternal pm ctx co)
  ⟨w.results, w.st, w.time, co.toSpawn.map (fun kt => kt.1)⟩


/-! ## Concrete fixtures used by witnesses and counterexamples -/

/-- A plugin with one command variable carrying an explicit 100 ms timeout. -/
def cmdPlugin : Plugin :=
  { plugin := ⟨"p", "fixture"⟩,
    provides := [("v", .command "cmd" none (some "100ms") none)],
    icons := [], config := [] }

/-- Manager holding only `cmdPlugin`. -/
def cmdPM : PluginManager :=
  { plugins := [("p", cmdPlugin)], lastCommandDuration := none }

/-- Two command variables: `a` with an explicit 50 ms timeout, `b` without. -/
def twoKeyPlugin : Plugin :=
  { plugin := ⟨"p", "fixture"⟩,
    provides := [("a", .command "cmd" none (some "50ms") none),
                 ("b", .command "cmd" none none none)],
    icons := [], config := [] }

/-- Manager holding only `twoKeyPlugin`. -/
def twoKeyPM : PluginManager :=
  { plugins := [("p", twoKeyPlugin)], lastCommandDuration := none }

/-- A command variable with the explicit fire-and-forget timeout "0". -/
def zeroPlugin : Plugin :=
  { plugin := ⟨"p", "fixture"⟩,
    provides := [("v", .command "cmd" none (some "0") none)],
    icons := [], config := [] }

/-- Manager holding only `zeroPlugin`. -/
def zeroPM : PluginManager :=
  { plugins := [("p", zeroPlugin)], lastCommandDuration := none }

/-- Context oracle resolving nothing. -/
def noCtx : String → Option String := fun _ => none

/-- Every command takes 1 s and prints `x`. -/
def slowEnv : String → FetchSpec :=
  fun _ => { duration := 1000, rawOutput := some "x" }

/-- Every command takes 1000 s. -/
def hugeEnv : String → FetchSpec :=
  fun _ => { duration := 1000000, rawOutput := some "x" }

/-- Empty engine state. -/
def emptyState : EngineState :=
  { cache := [], running := [], pending := [], nextId := 0 }

/-- A fetch for `p:v` is in flight (spawned at 0, needs 100 s); nothing is
cached. -/
def inflightState : EngineState :=
  { cache := [], running := [("p:v", ⟨0, 0⟩)],
    pending := [⟨0, "p:v", 0, 100000, some "x", .duration 500⟩], nextId := 1 }

/-- Like `inflightState`, but with an expired cache entry for `p:v`. -/
def inflightCachedState : EngineState :=
  { cache := [("p:v", ⟨"old", some 10⟩)], running := [("p:v", ⟨0, 0⟩)],
    pending := [⟨0, "p:v", 0, 100000, some "x", .duration 500⟩], nextId := 1 }

/-- A cache entry for `p:v` expiring at instant 100; nothing running. -/
def cachedState : EngineState :=
  { cache := [("p:v", ⟨"val", some 100⟩)], running := [], pending := [],
    nextId := 0 }

/-- A readable `.toml` plugin file with one well-formed and one malformed
provider entry. -/
def mixedEntriesFile : PluginFile :=
  { ext := "toml", readable := true, meta := some ⟨"p", "fixture"⟩,
    entries := [⟨"good", some (.command "echo hi" none none none)⟩,
                ⟨"bad", none⟩],
    icons := [], config := [] }

/-- The quantity claim C3 names as the shared budget, transcribed from the
claim wording ("the largest non-zero explicit per-key timeout among the
scheduled keys, 100 ms default if none specify one") for comparison with the
implementation, which instead substitutes the 100 ms default per key before
taking the maximum. -/
def claimedLargestExplicitTimeout (pm : PluginManager)
    (scheduled : List String) : Nat :=
  let ex := scheduled.filterMap (fun k =>
    match splitKey k with
    | none => none
    | some (pn, vn) =>
      match lookup pm.plugins pn with
      | none => none
      | some plugin =>
        match lookup plugin.provides vn with
        | some (.command _ _ (some ts) _) =>
          match parseDuration ts with
          | some d => if d = 0 then none else some d
          | none => none
        | _ => none)
  if ex.isEmpty then softTimeout else ex.foldl Nat.max 0


/-- State invariant used for the empty-string guarantee of claim C1 at key
`k`: nothing cached for `k`, every in-flight fetch for `k` completes only
after the shared deadline, and whatever registry entry `k` has points only
at fetches for `k` itself. -/
def stInv (deadline : Nat) (k : String) (s : EngineState) : Prop :=
  lookup s.cache k = none ∧
  (∀ f ∈ s.pending, f.key = k → deadline < f.spawnedAt + f.duration) ∧
  (∀ rt, lookup s.running k = some rt →
    ∀ f ∈ s.pending, f.id = rt.taskId → f.key = k)

/-- Invariant of the spawn phase at key `k`: every pending fetch for `k`
was spawned at the call instant with the oracle's duration, pending
identifiers stay below the id counter, and `k`'s registry entry, if any,
carries an identifier below the counter and points only at fetches for
`k`. -/
def spawnInv (k : String) (now dur : Nat) (s : EngineState) : Prop :=
  (∀ f ∈ s.pending, f.key = k → f.spawnedAt = now ∧ f.duration = dur) ∧
  (∀ f ∈ s.pending, f.id < s.nextId) ∧
  (∀ rt, lookup s.running k = some rt →
    rt.taskId < s.nextId ∧ ∀ f ∈ s.pending, f.id = rt.taskId → f.key = k)

/-! ## Lemmas about the association-list maps -/

theorem lookup_mapErase_self {β : Type} (m : List (String × β)) (k : String) :
    lookup (mapErase m k) k = none := by
  induction m with
  | nil => rfl
  | cons e es ih =>
    simp only [mapErase]
    by_cases he : e.1 = k
    · rw [if_pos he]; exact ih
    · rw [if_neg he]; simp only [lookup]; rw [if_neg he]; exact ih

theorem lookup_mapErase_ne {β : Type} (m : List (String × β)) (k k' : String)
    (h : k' ≠ k) : lookup (mapErase m k) k' = lookup m k' := by
  induction m with
  | nil => rfl
  | cons e es ih =>
    simp only [mapErase, lookup]
    by_cases he : e.1 = k
    · rw [if_pos he, ih]
      have hne : ¬e.1 = k' := by rw [he]; exact fun hc => h hc.symm
      rw [if_neg hne]
    · rw [if_neg he]
      simp only [lookup]
      by_cases he' : e.1 = k'
      · rw [if_pos he', if_pos he']
      · rw [if_neg he', if_neg he', ih]

theorem lookup_mapInsert_self {β : Type} (m : List (String × β)) (k : String)
    (v : β) : lookup (mapInsert m k v) k = some v := by
  simp [mapInsert, lookup]

theorem lookup_mapInsert_ne {β : Type} (m : List (String × β)) (k k' : String)
    (v : β) (h : k' ≠ k) : lookup (mapInsert m k v) k' = lookup m k' := by
  simp only [mapInsert, lookup]
  have hne : ¬k = k' := fun hc => h hc.symm
  rw [if_neg hne, lookup_mapErase_ne m k k' h]

/-! ## Lemmas about the classification loop -/

theorem classifyStep_eq (pm : PluginManager) (cache : List (String × CacheEntry))
    (running : List (String × RunningTask)) (now : Nat) (acc : ClassifyOut)
    (key : String) :
    classifyStep pm cache running now acc key =
      match keyFate pm cache running now key with
      | .internal => { acc with internalKeys := acc.internalKeys ++ [key] }
      | .inflight (some v) => { acc with results := mapInsert acc.results key v }
      | .inflight none => acc
      | .cachedHit v => { acc with results := mapInsert acc.results key v }
      | .scheduled t => { acc with toSpawn := acc.toSpawn ++ [(key, t)] } := by
  unfold classifyStep keyFate
  by_cases h1 : isInternalVariable pm key = true
  · simp [h1]
  · by_cases h2 : (lookup running key).isSome = true
    · cases hc : lookup cache key with
      | none => simp [h1, h2, hc]
      | some e => simp [h1, h2, hc]
    · cases hc : lookup cache key with
      | none => simp [h1, h2, hc]
      | some e =>
        by_cases hv : cacheEntryValid e now = true
        · simp [h1, h2, hc, hv]
        · simp [h1, h2, hc, hv]

theorem classify_foldl_toSpawn (pm : PluginManager) (c : List (String × CacheEntry))
    (r : List (String × RunningTask)) (now : Nat) (keys : List String) :
    ∀ acc : ClassifyOut,
      (keys.foldl (classifyStep pm c r now) acc).toSpawn =
        acc.toSpawn ++ keys.filterMap (fun k =>
          match keyFate pm c r now k with
          | .scheduled t => some (k, t)
          | _ => none) := by
  induction keys with
  | nil => intro acc; simp
  | cons key rest ih =>
    intro acc
    simp only [List.foldl_cons, List.filterMap_cons]
    rw [ih, classifyStep_eq]
    cases hf : keyFate pm c r now key with
    | internal => simp
    | inflight cached => cases cached <;> simp
    | cachedHit v => simp
    | scheduled t => simp

theorem classify_foldl_internalKeys (pm : PluginManager)
    (c : List (String × CacheEntry)) (r : List (String × RunningTask))
    (now : Nat) (keys : List String) :
    ∀ acc : ClassifyOut,
      (keys.foldl (classifyStep pm c r now) acc).internalKeys =
        acc.internalKeys ++ keys.filter (fun k =>
          decide (keyFate pm c r now k = .internal)) := by
  induction keys with
  | nil => intro acc; simp
  | cons key rest ih =>
    intro acc
    simp only [List.foldl_cons, List.filter_cons]
    rw [ih, classifyStep_eq]
    cases hf : keyFate pm c r now key with
    | internal => simp
    | inflight cached => cases cached <;> simp
    | cachedHit v => simp
    | scheduled t => simp

theorem classify_foldl_results_none (pm : PluginManager)
    (c : List (String × CacheEntry)) (r : List (String × RunningTask))
    (now : Nat) (k : String) (hv : classifyValue pm c r now k = none)
    (keys : List String) :
    ∀ acc : ClassifyOut,
      lookup (keys.foldl (classifyStep pm c r now) acc).results k =
        lookup acc.results k := by
  induction keys with
  | nil => intro acc; rfl
  | cons key rest ih =>
    intro acc
    simp only [List.foldl_cons]
    rw [ih, classifyStep_eq]
    by_cases hk : key = k
    · subst hk
      unfold classifyValue at hv
      cases hf : keyFate pm c r now key with
      | internal => simp
      | inflight cached =>
        cases cached with
        | none => simp
        | some v => rw [hf] at hv; exact absurd hv (by simp)
      | cachedHit v => rw [hf] at hv; exact absurd hv (by simp)
      | scheduled t => simp
    · have hne : k ≠ key := fun hc => hk hc.symm
      cases hf : keyFate pm c r now key with
      | internal => simp
      | inflight cached =>
        cases cached with
        | none => simp
        | some v => simp [lookup_mapInsert_ne _ _ _ _ hne]
      | cachedHit v => simp [lookup_mapInsert_ne _ _ _ _ hne]
      | scheduled t => simp

theorem classify_foldl_results_notmem (pm : PluginManager)
    (c : List (String × CacheEntry)) (r : List (String × RunningTask))
    (now : Nat) (k : String) (keys : List String) (hk : k ∉ keys) :
    ∀ acc : ClassifyOut,
      lookup (keys.foldl (classifyStep pm c r now) acc).results k =
        lookup acc.results k := by
  induction keys with
  | nil => intro acc; rfl
  | cons key rest ih =>
    intro acc
    have hk1 : k ≠ key := fun hc => hk (hc ▸ List.mem_cons_self key rest)
    have hk2 : k ∉ rest := fun hc => hk (List.mem_cons_of_mem key hc)
    simp only [List.foldl_cons]
    rw [ih hk2, classifyStep_eq]
    cases hf : keyFate pm c r now key with
    | internal => simp
    | inflight cached =>
      cases cached with
      | none => simp
      | some v => simp [lookup_mapInsert_ne _ _ _ _ hk1]
    | cachedHit v => simp [lookup_mapInsert_ne _ _ _ _ hk1]
    | scheduled t => simp

theorem classify_foldl_results_some (pm : PluginManager)
    (c : List (String × CacheEntry)) (r : List (String × RunningTask))
    (now : Nat) (k : String) (v : String)
    (hv : classifyValue pm c r now k = some v)
    (keys : List String) (hk : k ∈ keys) :
    ∀ acc : ClassifyOut,
      lookup (keys.foldl (classifyStep pm c r now) acc).results k = some v := by
  induction keys with
  | nil => exact absurd hk (List.not_mem_nil k)
  | cons key rest ih =>
    intro acc
    simp only [List.foldl_cons]
    by_cases hr : k ∈ rest
    · exact ih hr (classifyStep pm c r now acc key)
    · have hkey : key = k := by
        rcases List.mem_cons.mp hk with h | h
        · exact h.symm
        · exact absurd h hr
      subst hkey
      rw [classify_foldl_results_notmem pm c r now key rest hr]
      rw [classifyStep_eq]
      unfold classifyValue at hv
      cases hf : keyFate pm c r now key with
      | internal => rw [hf] at hv; exact absurd hv (by simp)
      | inflight cached =>
        cases cached with
        | none => rw [hf] at hv; exact absurd hv (by simp)
        | some w =>
          rw [hf] at hv
          simp only at hv
          simp [lookup_mapInsert_self, hv]
      | cachedHit w =>
        rw [hf] at hv
        simp only at hv
        simp [lookup_mapInsert_self, hv]
      | scheduled t => rw [hf] at hv; exact absurd hv (by simp)

theorem internal_foldl_notmem (pm : PluginManager) (ctx : String → Option String)
    (iks : List String) (k : String) (hk : k ∉ iks) :
    ∀ r0 : List (String × String),
      lookup (iks.foldl (fun r kk =>
        match getInternalVariable pm ctx kk with
        | some v => mapInsert r kk v
        | none => r) r0) k = lookup r0 k := by
  induction iks with
  | nil => intro r0; rfl
  | cons key rest ih =>
    intro r0
    have hk1 : k ≠ key := fun hc => hk (hc ▸ List.mem_cons_self key rest)
    have hk2 : k ∉ rest := fun hc => hk (List.mem_cons_of_mem key hc)
    simp only [List.foldl_cons]
    rw [ih hk2]
    cases hg : getInternalVariable pm ctx key with
    | none => rfl
    | some v => simp [lookup_mapInsert_ne _ _ _ _ hk1]

theorem internal_foldl_mem (pm : PluginManager) (ctx : String → Option String)
    (iks : List String) (k : String) (hk : k ∈ iks) :
    ∀ r0 : List (String × String),
      lookup (iks.foldl (fun r kk =>
        match getInternalVariable pm ctx kk with
        | some v => mapInsert r kk v
        | none => r) r0) k =
        match getInternalVariable pm ctx k with
        | some v => some v
        | none => lookup r0 k := by
  induction iks with
  | nil => exact absurd hk (List.not_mem_nil k)
  | cons key rest ih =>
    intro r0
    simp only [List.foldl_cons]
    by_cases hr : k ∈ rest
    · rw [ih hr]
      cases hg : getInternalVariable pm ctx k with
      | some v => simp
      | none =>
        simp only
        cases hgk : getInternalVariable pm ctx key with
        | none => rfl
        | some w =>
          by_cases hke : key = k
          · subst hke; rw [hgk] at hg; cases hg
          · have hne : k ≠ key := fun hc => hke hc.symm
            simp [lookup_mapInsert_ne _ _ _ _ hne]
    · have hkey : key = k := by
        rcases List.mem_cons.mp hk with h | h
        · exact h.symm
        · exact absurd h hr
      subst hkey
      rw [internal_foldl_notmem pm ctx rest key hr]
      cases hg : getInternalVariable pm ctx key with
      | none => rfl
      | some v => simp [lookup_mapInsert_self]

theorem phase3Step_results (d : Nat) (acc : WaitAcc) (kt : String × Nat) :
    ∃ v, (phase3Step d acc kt).results = mapInsert acc.results kt.1 v := by
  unfold phase3Step
  repeat' split
  all_goals exact ⟨_, rfl⟩

theorem phase3Step_time_le (d : Nat) (acc : WaitAcc) (kt : String × Nat)
    (h : acc.time ≤ d) : (phase3Step d acc kt).time ≤ d := by
  unfold phase3Step
  repeat' split
  all_goals dsimp only
  all_goals omega

theorem phase3_time_le (d : Nat) (ts : List (String × Nat)) :
    ∀ acc : WaitAcc, acc.time ≤ d →
      (ts.foldl (phase3Step d) acc).time ≤ d := by
  induction ts with
  | nil => intro acc h; exact h
  | cons kt rest ih =>
    intro acc h
    simp only [List.foldl_cons]
    exact ih _ (phase3Step_time_le d acc kt h)

theorem phase3Step_time_zero (d : Nat) (acc : WaitAcc) (kt : String × Nat)
    (h : kt.2 = 0) : (phase3Step d acc kt).time = acc.time := by
  unfold phase3Step
  rw [if_pos h]

theorem phase3_time_all_zero (d : Nat) (ts : List (String × Nat))
    (h : ∀ kt ∈ ts, kt.2 = 0) :
    ∀ acc : WaitAcc, (ts.foldl (phase3Step d) acc).time = acc.time := by
  induction ts with
  | nil => intro acc; rfl
  | cons kt rest ih =>
    intro acc
    simp only [List.foldl_cons]
    rw [ih (fun x hx => h x (List.mem_cons_of_mem kt hx))]
    exact phase3Step_time_zero d acc kt (h kt (List.mem_cons_self kt rest))

theorem phase3_results_notmem (d : Nat) (ts : List (String × Nat)) (k : String)
    (hk : k ∉ ts.map Prod.fst) :
    ∀ acc : WaitAcc,
      lookup (ts.foldl (phase3Step d) acc).results k = lookup acc.results k := by
  induction ts with
  | nil => intro acc; rfl
  | cons kt rest ih =>
    intro acc
    simp only [List.map_cons] at hk
    have hk1 : k ≠ kt.1 := fun hc => hk (hc ▸ List.mem_cons_self _ _)
    have hk2 : k ∉ rest.map Prod.fst := fun hc => hk (List.mem_cons_of_mem _ hc)
    simp only [List.foldl_cons]
    rw [ih hk2]
    obtain ⟨v, hv⟩ := phase3Step_results d acc kt
    rw [hv, lookup_mapInsert_ne _ _ _ _ hk1]

theorem phase3Step_isSome_mono (d : Nat) (acc : WaitAcc) (kt : String × Nat)
    (k : String) (h : (lookup acc.results k).isSome = true) :
    (lookup (phase3Step d acc kt).results k).isSome = true := by
  obtain ⟨v, hv⟩ := phase3Step_results d acc kt
  rw [hv]
  by_cases hk : k = kt.1
  · subst hk; simp [lookup_mapInsert_self]
  · rw [lookup_mapInsert_ne _ _ _ _ hk]; exact h

theorem phase3_isSome_mono (d : Nat) (ts : List (String × Nat)) (k : String) :
    ∀ acc : WaitAcc, (lookup acc.results k).isSome = true →
      (lookup (ts.foldl (phase3Step d) acc).results k).isSome = true := by
  induction ts with
  | nil => intro acc h; exact h
  | cons kt rest ih =>
    intro acc h
    simp only [List.foldl_cons]
    exact ih _ (phase3Step_isSome_mono d acc kt k h)

theorem phase3_results_mem_isSome (d : Nat) (ts : List (String × Nat)) (k : String)
    (hk : k ∈ ts.map Prod.fst) :
    ∀ acc : WaitAcc,
      (lookup (ts.foldl (phase3Step d) acc).results k).isSome = true := by
  induction ts with
  | nil => exact absurd hk (List.not_mem_nil k)
  | cons kt rest ih =>
    intro acc
    simp only [List.foldl_cons]
    by_cases hr : k ∈ rest.map Prod.fst
    · exact ih hr _
    · have hkey : kt.1 = k := by
        simp only [List.map_cons] at hk
        rcases List.mem_cons.mp hk with h | h
        · exact h.symm
        · exact absurd h hr
      apply phase3_isSome_mono
      obtain ⟨v, hv⟩ := phase3Step_results d acc kt
      rw [hv, hkey, lookup_mapInsert_self]
      rfl

theorem spawnVariableTask_pending (pm : PluginManager) (env : String → FetchSpec)
    (now : Nat) (st : EngineState) (key : String) :
    (spawnVariableTask pm env now st key).pending = st.pending ∨
      ∃ f : Fetch, (spawnVariableTask pm env now st key).pending = st.pending ++ [f] ∧
        f.key = key ∧ f.spawnedAt = now ∧ f.duration = (env key).duration := by
  unfold spawnVariableTask
  repeat' split
  · left; rfl
  · left; rfl
  · left; rfl
  · right; exact ⟨_, rfl, rfl, rfl, rfl⟩

theorem spawnVariableTask_of_timeout_zero (pm : PluginManager)
    (env : String → FetchSpec) (now : Nat) (st : EngineState) (key : String)
    (h : getVariableTimeout pm key = 0) :
    ∃ f : Fetch, (spawnVariableTask pm env now st key).pending = st.pending ++ [f] ∧
      f.key = key ∧ f.spawnedAt = now ∧ f.duration = (env key).duration := by
  cases hs : splitKey key with
  | none => simp only [getVariableTimeout, hs] at h; exact absurd h (by simp [softTimeout])
  | some pv =>
    obtain ⟨pn, vn⟩ := pv
    cases hp : lookup pm.plugins pn with
    | none =>
      simp only [getVariableTimeout, hs, hp] at h
      exact absurd h (by simp [softTimeout])
    | some plugin =>
      cases hpr : lookup plugin.provides vn with
      | none =>
        simp only [getVariableTimeout, hs, hp, hpr] at h
        exact absurd h (by simp [softTimeout])
      | some provider =>
        simp only [spawnVariableTask, hs, hp, hpr]
        exact ⟨_, rfl, rfl, rfl, rfl⟩

/-! ## Lemmas connecting `getVariables` to its stages -/

theorem getVariables_results_eq (pm : PluginManager) (ctx : String → Option String)
    (env : String → FetchSpec) (st0 : EngineState) (now : Nat) (keys : List String) :
    (getVariables pm ctx env st0 now keys).results =
      ((classifyOf pm st0 now keys).toSpawn.foldl
        (phase3Step (now + maxNonzeroTimeout (classifyOf pm st0 now keys).toSpawn))
        ⟨stateAfterSpawn pm env st0 now keys, now,
          resultsAfterInternal pm ctx (classifyOf pm st0 now keys)⟩).results := rfl

theorem getVariables_endTime_eq (pm : PluginManager) (ctx : String → Option String)
    (env : String → FetchSpec) (st0 : EngineState) (now : Nat) (keys : List String) :
    (getVariables pm ctx env st0 now keys).endTime =
      ((classifyOf pm st0 now keys).toSpawn.foldl
        (phase3Step (now + maxNonzeroTimeout (classifyOf pm st0 now keys).toSpawn))
        ⟨stateAfterSpawn pm env st0 now keys, now,
          resultsAfterInternal pm ctx (classifyOf pm st0 now keys)⟩).time := rfl

theorem getVariables_spawned_eq (pm : PluginManager) (ctx : String → Option String)
    (env : String → FetchSpec) (st0 : EngineState) (now : Nat) (keys : List String) :
    (getVariables pm ctx env st0 now keys).spawned =
      (classifyOf pm st0 now keys).toSpawn.map (fun kt => kt.1) := rfl

theorem classifyOf_toSpawn_eq (pm : PluginManager) (st0 : EngineState) (now : Nat)
    (keys : List String) :
    (classifyOf pm st0 now keys).toSpawn =
      keys.filterMap (fun kk =>
        match keyFate pm (resolveState st0 now).cache (resolveState st0 now).running now kk with
        | .scheduled t => some (kk, t)
        | _ => none) := by
  unfold classifyOf classifyKeys
  rw [classify_foldl_toSpawn]
  rfl

theorem classifyOf_internalKeys_eq (pm : PluginManager) (st0 : EngineState) (now : Nat)
    (keys : List String) :
    (classifyOf pm st0 now keys).internalKeys =
      keys.filter (fun kk =>
        decide (keyFate pm (resolveState st0 now).cache (resolveState st0 now).running now kk
          = .internal)) := by
  unfold classifyOf classifyKeys
  rw [classify_foldl_internalKeys]
  rfl

theorem not_mem_toSpawn_keys (pm : PluginManager) (st0 : EngineState) (now : Nat)
    (keys : List String) (k : String)
    (h : ∀ t, keyFate pm (resolveState st0 now).cache (resolveState st0 now).running now k
      ≠ .scheduled t) :
    k ∉ (classifyOf pm st0 now keys).toSpawn.map (fun kt => kt.1) := by
  rw [classifyOf_toSpawn_eq]
  intro hmem
  obtain ⟨kt, hkt, hfst⟩ := List.mem_map.mp hmem
  obtain ⟨a, _, heq⟩ := List.mem_filterMap.mp hkt
  cases hf : keyFate pm (resolveState st0 now).cache (resolveState st0 now).running now a with
  | scheduled t =>
    rw [hf] at heq
    have hkt : (a, t) = kt := Option.some.inj heq
    have hak : a = k := by rw [← hkt] at hfst; exact hfst
    exact h t (hak ▸ hf)
  | internal => rw [hf] at heq; cases heq
  | inflight cached => rw [hf] at heq; cases heq
  | cachedHit v => rw [hf] at heq; cases heq

theorem mem_toSpawn_keys (pm : PluginManager) (st0 : EngineState) (now : Nat)
    (keys : List String) (k : String) (t : Nat) (hk : k ∈ keys)
    (hf : keyFate pm (resolveState st0 now).cache (resolveState st0 now).running now k
      = .scheduled t) :
    k ∈ (classifyOf pm st0 now keys).toSpawn.map (fun kt => kt.1) := by
  rw [classifyOf_toSpawn_eq]
  exact List.mem_map.mpr ⟨(k, t), List.mem_filterMap.mpr ⟨k, hk, by rw [hf]⟩, rfl⟩

theorem not_mem_internalKeys (pm : PluginManager) (st0 : EngineState) (now : Nat)
    (keys : List String) (k : String)
    (h : keyFate pm (resolveState st0 now).cache (resolveState st0 now).running now k
      ≠ .internal) :
    k ∉ (classifyOf pm st0 now keys).internalKeys := by
  rw [classifyOf_internalKeys_eq]
  intro hmem
  have := (List.mem_filter.mp hmem).2
  exact h (of_decide_eq_true this)

theorem mem_internalKeys (pm : PluginManager) (st0 : EngineState) (now : Nat)
    (keys : List String) (k : String) (hk : k ∈ keys)
    (hf : keyFate pm (resolveState st0 now).cache (resolveState st0 now).running now k
      = .internal) :
    k ∈ (classifyOf pm st0 now keys).internalKeys := by
  rw [classifyOf_internalKeys_eq]
  exact List.mem_filter.mpr ⟨hk, decide_eq_true hf⟩

theorem getVariables_lookup_of_value_some (pm : PluginManager)
    (ctx : String → Option String) (env : String → FetchSpec) (st0 : EngineState)
    (now : Nat) (keys : List String) (k v : String) (hk : k ∈ keys)
    (hv : classifyValue pm (resolveState st0 now).cache (resolveState st0 now).running
      now k = some v) :
    lookup (getVariables pm ctx env st0 now keys).results k = some v := by
  have hnotint : keyFate pm (resolveState st0 now).cache (resolveState st0 now).running
      now k ≠ .internal := by
    intro hc
    unfold classifyValue at hv
    rw [hc] at hv
    simp at hv
  have hnotsched : ∀ t, keyFate pm (resolveState st0 now).cache
      (resolveState st0 now).running now k ≠ .scheduled t := by
    intro t hc
    unfold classifyValue at hv
    rw [hc] at hv
    simp at hv
  rw [getVariables_results_eq]
  exact (phase3_results_notmem _ _ k (not_mem_toSpawn_keys pm st0 now keys k hnotsched) _).trans
    ((internal_foldl_notmem pm ctx _ k (not_mem_internalKeys pm st0 now keys k hnotint) _).trans
      (classify_foldl_results_some pm _ _ now k v hv keys hk _))

theorem getVariables_lookup_of_value_none (pm : PluginManager)
    (ctx : String → Option String) (env : String → FetchSpec) (st0 : EngineState)
    (now : Nat) (keys : List String) (k : String)
    (hnotint : keyFate pm (resolveState st0 now).cache (resolveState st0 now).running
      now k ≠ .internal)
    (hnotsched : ∀ t, keyFate pm (resolveState st0 now).cache
      (resolveState st0 now).running now k ≠ .scheduled t)
    (hv : classifyValue pm (resolveState st0 now).cache (resolveState st0 now).running
      now k = none) :
    lookup (getVariables pm ctx env st0 now keys).results k = none := by
  rw [getVariables_results_eq]
  exact (phase3_results_notmem _ _ k (not_mem_toSpawn_keys pm st0 now keys k hnotsched) _).trans
    ((internal_foldl_notmem pm ctx _ k (not_mem_internalKeys pm st0 now keys k hnotint) _).trans
      (classify_foldl_results_none pm _ _ now k hv keys _))

theorem getVariables_lookup_isSome_of_scheduled (pm : PluginManager)
    (ctx : String → Option String) (env : String → FetchSpec) (st0 : EngineState)
    (now : Nat) (keys : List String) (k : String) (t : Nat) (hk : k ∈ keys)
    (hf : keyFate pm (resolveState st0 now).cache (resolveState st0 now).running
      now k = .scheduled t) :
    (lookup (getVariables pm ctx env st0 now keys).results k).isSome = true := by
  rw [getVariables_results_eq]
  exact phase3_results_mem_isSome _ _ k (mem_toSpawn_keys pm st0 now keys k t hk hf) _

theorem getVariables_lookup_of_internal (pm : PluginManager)
    (ctx : String → Option String) (env : String → FetchSpec) (st0 : EngineState)
    (now : Nat) (keys : List String) (k : String) (hk : k ∈ keys)
    (hf : keyFate pm (resolveState st0 now).cache (resolveState st0 now).running
      now k = .internal) :
    lookup (getVariables pm ctx env st0 now keys).results k =
      getInternalVariable pm ctx k := by
  have hnotsched : ∀ t, keyFate pm (resolveState st0 now).cache
      (resolveState st0 now).running now k ≠ .scheduled t := by
    intro t hc
    rw [hf] at hc
    cases hc
  rw [getVariables_results_eq]
  refine (phase3_results_notmem _ _ k (not_mem_toSpawn_keys pm st0 now keys k hnotsched) _).trans
    ((internal_foldl_mem pm ctx _ k (mem_internalKeys pm st0 now keys k hk hf) _).trans ?_)
  cases hg : getInternalVariable pm ctx k with
  | some v => simp
  | none =>
    simp only
    exact classify_foldl_results_none pm _ _ now k
      (by unfold classifyValue; rw [hf]) keys _

theorem contains_iff_mem {α : Type} [BEq α] [LawfulBEq α] (l : List α) (a : α) :
    l.contains a = true ↔ a ∈ l := by
  simp [List.contains, List.elem_iff]

theorem lookup_filter_eq_none {β : Type} (m : List (String × β))
    (p : String × β → Bool) (k : String)
    (h : ∀ e ∈ m, e.1 = k → p e = false) :
    lookup (m.filter p) k = none := by
  induction m with
  | nil => rfl
  | cons e es ih =>
    simp only [List.filter_cons]
    cases hp : p e with
    | true =>
      simp only [if_pos]
      simp only [lookup]
      have he : ¬e.1 = k := by
        intro hc
        have hfe := h e (List.mem_cons_self _ _) hc
        rw [hfe] at hp
        cases hp
      rw [if_neg he]
      exact ih (fun x hx hxk => h x (List.mem_cons_of_mem _ hx) hxk)
    | false =>
      simp only [Bool.false_eq_true, if_false]
      exact ih (fun x hx hxk => h x (List.mem_cons_of_mem _ hx) hxk)

theorem cleanup_age_bound (st : EngineState) (now : Nat) :
    ∀ e ∈ (cleanupStaleTasks now st).running, now - e.2.startedAt ≤ hardTimeout := by
  intro e he
  simp only [cleanupStaleTasks] at he
  rw [List.mem_filter] at he
  obtain ⟨hmem, hcond⟩ := he
  by_contra hgt
  push_neg at hgt
  have hstale : e.1 ∈ (st.running.filter
      (fun x => decide (hardTimeout < now - x.2.startedAt))).map (fun x => x.1) :=
    List.mem_map.mpr ⟨e, List.mem_filter.mpr ⟨hmem, decide_eq_true hgt⟩, rfl⟩
  have hfalse : ((st.running.filter
      (fun x => decide (hardTimeout < now - x.2.startedAt))).map (fun x => x.1)).contains e.1
      = true := (contains_iff_mem _ _).mpr hstale
  rw [hfalse] at hcond
  cases hcond

theorem cleanup_removes_stale (st : EngineState) (now : Nat) (k : String)
    (rt : RunningTask) (hmem : (k, rt) ∈ st.running)
    (hst : hardTimeout < now - rt.startedAt) :
    lookup (cleanupStaleTasks now st).running k = none ∧
    rt.taskId ∉ (cleanupStaleTasks now st).pending.map (fun f => f.id) := by
  have hkmem : k ∈ (st.running.filter
      (fun x => decide (hardTimeout < now - x.2.startedAt))).map (fun x => x.1) :=
    List.mem_map.mpr ⟨(k, rt), List.mem_filter.mpr ⟨hmem, decide_eq_true hst⟩, rfl⟩
  have hidmem : rt.taskId ∈ (st.running.filter
      (fun x => decide (hardTimeout < now - x.2.startedAt))).map (fun x => x.2.taskId) :=
    List.mem_map.mpr ⟨(k, rt), List.mem_filter.mpr ⟨hmem, decide_eq_true hst⟩, rfl⟩
  constructor
  · simp only [cleanupStaleTasks]
    apply lookup_filter_eq_none
    intro e hemem hek
    have hct : ((st.running.filter
        (fun x => decide (hardTimeout < now - x.2.startedAt))).map (fun x => x.1)).contains e.1
        = true := (contains_iff_mem _ _).mpr (hek ▸ hkmem)
    rw [hct]
    rfl
  · simp only [cleanupStaleTasks]
    intro hid
    obtain ⟨f, hf, hfid⟩ := List.mem_map.mp hid
    have hcond := (List.mem_filter.mp hf).2
    have hct : ((st.running.filter
        (fun x => decide (hardTimeout < now - x.2.startedAt))).map
          (fun x => x.2.taskId)).contains f.id = true :=
      (contains_iff_mem _ _).mpr (hfid ▸ hidmem)
    rw [hct] at hcond
    cases hcond

theorem resolve_spawns_reclaimed_key (pm : PluginManager)
    (ctx : String → Option String) (env : String → FetchSpec) (st0 : EngineState)
    (now : Nat) (keys : List String) (k : String) (rt : RunningTask)
    (hk : k ∈ keys) (hint : isInternalVariable pm k = false)
    (hmem : (k, rt) ∈ (flushUpto now st0).running)
    (hst : hardTimeout < now - rt.startedAt)
    (hcache : lookup (resolveState st0 now).cache k = none) :
    k ∈ (getVariables pm ctx env st0 now keys).spawned := by
  have hrun : lookup (resolveState st0 now).running k = none :=
    (cleanup_removes_stale (flushUpto now st0) now k rt hmem hst).1
  have hfate : keyFate pm (resolveState st0 now).cache (resolveState st0 now).running
      now k = .scheduled (getVariableTimeout pm k) := by
    unfold keyFate
    simp [hint, hrun, hcache]
  rw [getVariables_spawned_eq]
  exact mem_toSpawn_keys pm st0 now keys k _ hk hfate

/-- Claim C7: at the start of every resolve call, every running task whose
age exceeds the 5 s hard timeout is aborted (it disappears from the pending
fetches, so it never writes the cache) and evicted from the registry; after
the reap no registered task is older than the hard timeout, and — when
nothing usable is cached — the reclaimed key is scheduled for a fresh fetch
in that same call. -/
theorem claim_c7_stale_reaping :
    (∀ (st : EngineState) (now : Nat), ∀ e ∈ (cleanupStaleTasks now st).running,
      now - e.2.startedAt ≤ hardTimeout) ∧
    (∀ (st : EngineState) (now : Nat) (k : String) (rt : RunningTask),
      (k, rt) ∈ st.running → hardTimeout < now - rt.startedAt →
      lookup (cleanupStaleTasks now st).running k = none ∧
      rt.taskId ∉ (cleanupStaleTasks now st).pending.map (fun f => f.id)) ∧
    (∀ (pm : PluginManager) (ctx : String → Option String) (env : String → FetchSpec)
      (st0 : EngineState) (now : Nat) (keys : List String) (k : String)
      (rt : RunningTask),
      k ∈ keys → isInternalVariable pm k = false →
      (k, rt) ∈ (flushUpto now st0).running →
      hardTimeout < now - rt.startedAt →
      lookup (resolveState st0 now).cache k = none →
      k ∈ (getVariables pm ctx env st0 now keys).spawned) :=
  ⟨cleanup_age_bound,
   fun st now k rt h1 h2 => cleanup_removes_stale st now k rt h1 h2,
   fun pm ctx env st0 now keys k rt h1 h2 h3 h4 h5 =>
     resolve_spawns_reclaimed_key pm ctx env st0 now keys k rt h1 h2 h3 h4 h5⟩

/-- Witness for C7: a task for `p:v` started at 0 is reaped by a call at
instant 6000 and the key is re-scheduled in that call. -/
theorem claim_c7_witness :
    lookup (cleanupStaleTasks 6000 inflightState).running "p:v" = none ∧
    "p:v" ∈ (getVariables cmdPM noCtx slowEnv inflightState 6000 ["p:v"]).spawned :=
  ⟨(claim_c7_stale_reaping.2.1 inflightState 6000 "p:v" ⟨0, 0⟩ (by decide) (by decide)).1,
   claim_c7_stale_reaping.2.2 cmdPM noCtx slowEnv inflightState 6000 ["p:v"] "p:v"
     ⟨0, 0⟩ (by decide) (by decide) (by decide) (by decide) (by decide)⟩

/-- Claim C5: a requested non-internal key with no task in flight and a
non-expired cache entry (expiry strictly in the future, or no expiry under
the never policy) resolves to that cached value without being scheduled; an
expired entry makes the call schedule a fresh fetch.  Validity is exactly
"no expiry, or expiry strictly in the future". -/
theorem claim_c5_cache_validity (pm : PluginManager) (ctx : String → Option String)
    (env : String → FetchSpec) (st0 : EngineState) (now : Nat) (keys : List String)
    (k : String) (e : CacheEntry) (hk : k ∈ keys)
    (hint : isInternalVariable pm k = false)
    (hrun : lookup (resolveState st0 now).running k = none)
    (hc : lookup (resolveState st0 now).cache k = some e) :
    (cacheEntryValid e now = true →
      lookup (getVariables pm ctx env st0 now keys).results k = some e.value ∧
      k ∉ (getVariables pm ctx env st0 now keys).spawned) ∧
    (cacheEntryValid e now = false →
      k ∈ (getVariables pm ctx env st0 now keys).spawned) ∧
    (e.expiresAt = none → cacheEntryValid e now = true) ∧
    (∀ x, e.expiresAt = some x → (cacheEntryValid e now = true ↔ now < x)) := by
  refine ⟨?_, ?_, ?_, ?_⟩
  · intro hvalid
    have hfate : keyFate pm (resolveState st0 now).cache (resolveState st0 now).running
        now k = .cachedHit e.value := by
      unfold keyFate
      simp [hint, hrun, hc, hvalid]
    constructor
    · exact getVariables_lookup_of_value_some pm ctx env st0 now keys k e.value hk
        (by unfold classifyValue; rw [hfate])
    · rw [getVariables_spawned_eq]
      exact not_mem_toSpawn_keys pm st0 now keys k
        (fun t hc2 => by rw [hfate] at hc2; cases hc2)
  · intro hinvalid
    have hfate : keyFate pm (resolveState st0 now).cache (resolveState st0 now).running
        now k = .scheduled (getVariableTimeout pm k) := by
      unfold keyFate
      simp [hint, hrun, hc, hinvalid]
    rw [getVariables_spawned_eq]
    exact mem_toSpawn_keys pm st0 now keys k _ hk hfate
  · intro hnone
    unfold cacheEntryValid
    rw [hnone]
  · intro x hx
    unfold cacheEntryValid
    rw [hx]
    exact decide_eq_true_iff

/-- Witness for C5: the entry for `p:v` expiring at 100 is served at instant
50 without scheduling, and the first call after expiry (instant 150)
schedules a fresh fetch. -/
theorem claim_c5_witness :
    lookup (getVariables cmdPM noCtx slowEnv cachedState 50 ["p:v"]).results "p:v" =
      some "val" ∧
    "p:v" ∉ (getVariables cmdPM noCtx slowEnv cachedState 50 ["p:v"]).spawned ∧
    "p:v" ∈ (getVariables cmdPM noCtx slowEnv cachedState 150 ["p:v"]).spawned :=
  ⟨((claim_c5_cache_validity cmdPM noCtx slowEnv cachedState 50 ["p:v"] "p:v"
      ⟨"val", some 100⟩ (by decide) (by decide) (by decide) (by decide)).1 (by decide)).1,
   ((claim_c5_cache_validity cmdPM noCtx slowEnv cachedState 50 ["p:v"] "p:v"
      ⟨"val", some 100⟩ (by decide) (by decide) (by decide) (by decide)).1 (by decide)).2,
   (claim_c5_cache_validity cmdPM noCtx slowEnv cachedState 150 ["p:v"] "p:v"
      ⟨"val", some 100⟩ (by decide) (by decide) (by decide) (by decide)).2.1 (by decide)⟩

/-- Counterexample to claim C2 as stated: two back-to-back calls for the
same uncached key spawn two fetches, not one.  The first call (instant 0)
schedules `p:v`; its wait times out at 100 ms and consumes the registry
entry while the 1 s fetch keeps running.  The second call (instant 150)
finds neither a registry entry nor a cache entry and schedules `p:v` again,
so two fetches for the key are in flight simultaneously (they complete at
1000 and 1150). -/
theorem claim_c2_counterexample :
    (getVariables cmdPM noCtx slowEnv emptyState 0 ["p:v"]).spawned = ["p:v"] ∧
    (getVariables cmdPM noCtx slowEnv
      (getVariables cmdPM noCtx slowEnv emptyState 0 ["p:v"]).st 150 ["p:v"]).spawned =
      ["p:v"] ∧
    (getVariables cmdPM noCtx slowEnv
      (getVariables cmdPM noCtx slowEnv emptyState 0 ["p:v"]).st 150 ["p:v"]).st.pending =
      [⟨0, "p:v", 0, 1000, some "x", .duration 500⟩,
       ⟨1, "p:v", 150, 1000, some "x", .duration 500⟩] := by
  exact ⟨by decide, by decide, by decide⟩

/-- Claim C2 as amended: while a key's RunningTask remains registered, a
resolve call does not schedule a new fetch for it and answers the key from
whatever is currently cached (omitting it when nothing is cached); the
guarantee holds only as long as the registry entry exists, since a wait
timeout consumes it. -/
theorem claim_c2_amended (pm : PluginManager) (ctx : String → Option String)
    (env : String → FetchSpec) (st0 : EngineState) (now : Nat) (keys : List String)
    (k : String) (rt : RunningTask) (hk : k ∈ keys)
    (hint : isInternalVariable pm k = false)
    (hrun : lookup (resolveState st0 now).running k = some rt) :
    k ∉ (getVariables pm ctx env st0 now keys).spawned ∧
    lookup (getVariables pm ctx env st0 now keys).results k =
      (lookup (resolveState st0 now).cache k).map (fun e2 => e2.value) := by
  have hfate : keyFate pm (resolveState st0 now).cache (resolveState st0 now).running
      now k = .inflight ((lookup (resolveState st0 now).cache k).map (fun e2 => e2.value)) := by
    unfold keyFate
    simp [hint, hrun]
  constructor
  · rw [getVariables_spawned_eq]
    exact not_mem_toSpawn_keys pm st0 now keys k
      (fun t hc => by rw [hfate] at hc; cases hc)
  · cases hc : lookup (resolveState st0 now).cache k with
    | some e2 =>
      have hfate2 : keyFate pm (resolveState st0 now).cache (resolveState st0 now).running
          now k = .inflight (some e2.value) := by
        rw [hfate, hc]
        rfl
      exact getVariables_lookup_of_value_some pm ctx env st0 now keys k e2.value hk
        (by unfold classifyValue; rw [hfate2])
    | none =>
      have hfate2 : keyFate pm (resolveState st0 now).cache (resolveState st0 now).running
          now k = .inflight none := by
        rw [hfate, hc]
        rfl
      exact getVariables_lookup_of_value_none pm ctx env st0 now keys k
        (fun hcc => by rw [hfate2] at hcc; cases hcc)
        (fun t hcc => by rw [hfate2] at hcc; cases hcc)
        (by unfold classifyValue; rw [hfate2])

/-- Witness for C2: with a task for `p:v` in flight and an expired entry
cached, a call at instant 50 does not re-schedule the key and answers it
from the stale cache. -/
theorem claim_c2_witness :
    "p:v" ∉ (getVariables cmdPM noCtx slowEnv inflightCachedState 50 ["p:v"]).spawned ∧
    lookup (getVariables cmdPM noCtx slowEnv inflightCachedState 50 ["p:v"]).results
      "p:v" =
      (lookup (resolveState inflightCachedState 50).cache "p:v").map (fun e2 => e2.value) :=
  claim_c2_amended cmdPM noCtx slowEnv inflightCachedState 50 ["p:v"] "p:v" ⟨0, 0⟩
    (by decide) (by decide) (by decide)

/-- Counterexample to claim C1 as stated: `p:v` is requested while a fetch
for it is in flight and nothing is cached; the returned map has no entry at
all for the key, not an empty-string entry. -/
theorem claim_c1_counterexample :
    (getVariables cmdPM noCtx slowEnv inflightState 50 ["p:v"]).results = [] ∧
    lookup (getVariables cmdPM noCtx slowEnv inflightState 50 ["p:v"]).results "p:v" =
      none := by
  exact ⟨by decide, by decide⟩

theorem keyFate_scheduled_timeout (pm : PluginManager)
    (c : List (String × CacheEntry)) (r : List (String × RunningTask))
    (now : Nat) (k : String) (t : Nat)
    (h : keyFate pm c r now k = .scheduled t) : t = getVariableTimeout pm k := by
  unfold keyFate at h
  by_cases h1 : isInternalVariable pm k = true
  · rw [if_pos h1] at h; cases h
  · rw [if_neg h1] at h
    by_cases h2 : (lookup r k).isSome = true
    · rw [if_pos h2] at h; cases h
    · rw [if_neg h2] at h
      cases hc : lookup c k with
      | none =>
        rw [hc] at h
        injection h with h
        exact h.symm
      | some e =>
        rw [hc] at h
        dsimp only at h
        by_cases hv : cacheEntryValid e now = true
        · rw [if_pos hv] at h; cases h
        · rw [if_neg hv] at h
          injection h with h
          exact h.symm

/-- Claim C6: a scheduled key whose explicit timeout parses to zero is
fire-and-forget.  (1) When every scheduled key has timeout zero the call
returns at the instant it was entered; (2) the waiting step for a
zero-timeout key leaves the clock untouched and answers from the currently
cached value, or the empty string when nothing is cached, whatever the
fetch's runtime; (3) the background task is still spawned; (4) a key whose
classification schedules it is in the call's spawned list. -/
theorem claim_c6_fire_and_forget (pm : PluginManager) (ctx : String → Option String)
    (env : String → FetchSpec) (st0 : EngineState) (now : Nat) (keys : List String) :
    ((∀ kt ∈ (classifyOf pm st0 now keys).toSpawn, kt.2 = 0) →
      (getVariables pm ctx env st0 now keys).endTime = now) ∧
    (∀ (d : Nat) (acc : WaitAcc) (k : String),
      (phase3Step d acc (k, 0)).time = acc.time ∧
      (phase3Step d acc (k, 0)).results =
        mapInsert acc.results k (cacheOrEmpty (flushUpto acc.time acc.st).cache k)) ∧
    (∀ (st : EngineState) (k : String), getVariableTimeout pm k = 0 →
      ∃ f : Fetch, (spawnVariableTask pm env now st k).pending = st.pending ++ [f] ∧
        f.key = k ∧ f.spawnedAt = now ∧ f.duration = (env k).duration) ∧
    (∀ (k : String) (t : Nat), k ∈ keys →
      keyFate pm (resolveState st0 now).cache (resolveState st0 now).running now k =
        .scheduled t →
      k ∈ (getVariables pm ctx env st0 now keys).spawned) := by
  refine ⟨?_, ?_, ?_, ?_⟩
  · intro hall
    rw [getVariables_endTime_eq]
    exact phase3_time_all_zero _ _ hall _
  · intro d acc k
    refine ⟨phase3Step_time_zero d acc (k, 0) rfl, ?_⟩
    simp [phase3Step]
  · intro st k h
    exact spawnVariableTask_of_timeout_zero pm env now st k h
  · intro k t hk hf
    rw [getVariables_spawned_eq]
    exact mem_toSpawn_keys pm st0 now keys k t hk hf

/-- Witness for C6: with a single key carrying explicit timeout "0" and a
1 s command, the call returns immediately, the waiting step does not move
the clock, and the key is still scheduled. -/
theorem claim_c6_witness :
    (getVariables zeroPM noCtx slowEnv emptyState 0 ["p:v"]).endTime = 0 ∧
    (phase3Step 77 ⟨emptyState, 5, []⟩ ("p:v", 0)).time = 5 ∧
    "p:v" ∈ (getVariables zeroPM noCtx slowEnv emptyState 0 ["p:v"]).spawned :=
  ⟨(claim_c6_fire_and_forget zeroPM noCtx slowEnv emptyState 0 ["p:v"]).1 (by decide),
   ((claim_c6_fire_and_forget zeroPM noCtx slowEnv emptyState 0 ["p:v"]).2.1 77
     ⟨emptyState, 5, []⟩ "p:v").1,
   (claim_c6_fire_and_forget zeroPM noCtx slowEnv emptyState 0 ["p:v"]).2.2.2 "p:v" 0
     (by decide) (by decide)⟩

/-- Counterexample to claim C3 as stated: with key `a` carrying an explicit
50 ms timeout and key `b` carrying none, the largest non-zero explicit
per-key timeout is 50 ms, yet the call waits 100 ms (key `b` contributes
the 100 ms default to the shared deadline), exceeding the claimed bound. -/
theorem claim_c3_counterexample :
    claimedLargestExplicitTimeout twoKeyPM ["p:a", "p:b"] = 50 ∧
    (getVariables twoKeyPM noCtx hugeEnv emptyState 0 ["p:a", "p:b"]).spawned =
      ["p:a", "p:b"] ∧
    (getVariables twoKeyPM noCtx hugeEnv emptyState 0 ["p:a", "p:b"]).endTime = 100 ∧
    ¬((getVariables twoKeyPM noCtx hugeEnv emptyState 0 ["p:a", "p:b"]).endTime ≤
      0 + claimedLargestExplicitTimeout twoKeyPM ["p:a", "p:b"]) := by
  exact ⟨by decide, by decide, by decide, by decide⟩

/-- Claim C3 as amended: the call's waiting phase is bounded by one shared
deadline equal to the entry instant plus the largest non-zero per-key
timeout of the scheduled batch, where a key without a parseable explicit
timeout contributes the 100 ms default (100 ms also when every scheduled
timeout is zero); every scheduled entry carries exactly its per-key
effective timeout.  Hence the cumulative wait of the whole batch never
exceeds that largest timeout, regardless of key count. -/
theorem claim_c3_amended (pm : PluginManager) (ctx : String → Option String)
    (env : String → FetchSpec) (st0 : EngineState) (now : Nat) (keys : List String) :
    (getVariables pm ctx env st0 now keys).endTime ≤
      now + maxNonzeroTimeout (classifyOf pm st0 now keys).toSpawn ∧
    (∀ kt ∈ (classifyOf pm st0 now keys).toSpawn,
      kt.2 = getVariableTimeout pm kt.1) := by
  constructor
  · rw [getVariables_endTime_eq]
    exact phase3_time_le _ _ _ (Nat.le_add_right now _)
  · intro kt hkt
    rw [classifyOf_toSpawn_eq] at hkt
    obtain ⟨a, _, heq⟩ := List.mem_filterMap.mp hkt
    cases hf : keyFate pm (resolveState st0 now).cache (resolveState st0 now).running
        now a with
    | scheduled t =>
      rw [hf] at heq
      have hkt2 : (a, t) = kt := Option.some.inj heq
      rw [← hkt2]
      exact keyFate_scheduled_timeout pm _ _ now a t hf
    | internal => rw [hf] at heq; cases heq
    | inflight cached => rw [hf] at heq; cases heq
    | cachedHit v => rw [hf] at heq; cases heq

/-- Witness for C3: the two-key batch of the counterexample obeys the
implemented bound (its wait is 100 ms ≤ the 100 ms shared budget), and the
scheduled entry for `p:a` carries exactly its effective 50 ms timeout. -/
theorem claim_c3_witness :
    (getVariables twoKeyPM noCtx hugeEnv emptyState 0 ["p:a", "p:b"]).endTime ≤
      0 + maxNonzeroTimeout (classifyOf twoKeyPM emptyState 0 ["p:a", "p:b"]).toSpawn ∧
    ("p:a", (50 : Nat)).2 = getVariableTimeout twoKeyPM ("p:a", (50 : Nat)).1 :=
  ⟨(claim_c3_amended twoKeyPM noCtx hugeEnv emptyState 0 ["p:a", "p:b"]).1,
   (claim_c3_amended twoKeyPM noCtx hugeEnv emptyState 0 ["p:a", "p:b"]).2
     ("p:a", 50) (by decide)⟩

/-- Claim C10: `parse_duration` treats a bare numeric string with no unit
suffix as milliseconds ("0" parses to the zero duration, "250" to 250 ms),
accepts fractional values ("1.5s" parses to 1500 ms), and returns `none`
exactly when the numeric prefix fails to parse or the (case-insensitively
compared) unit suffix is none of "", "ms", "s", "m", "h". -/
theorem claim_c10_parse_duration :
    parseDuration "0" = some 0 ∧
    parseDuration "250" = some 250 ∧
    parseDuration "1.5s" = some 1500 ∧
    parseDuration "1.5S" = some 1500 ∧
    (∀ s : String, parseDuration s = none ↔
      (parseDecimal (numPart s) = none ∨ unitMult (unitPart s) = none)) := by
  refine ⟨by decide, by decide, by decide, by decide, ?_⟩
  intro s
  unfold parseDuration
  cases hd : parseDecimal (numPart s) with
  | none => simp
  | some t =>
    obtain ⟨i, f, l⟩ := t
    cases hu : unitMult (unitPart s) with
    | none => simp
    | some m => simp

/-- Claim C8: for a command provider the produced value is the trimmed
stdout transformed as configured: `non_empty` yields the plugin's "clean"
icon on empty output (no value at all when that icon is undefined) and the
"dirty" icon on non-empty output; `with_icon` yields no value on empty
output, and otherwise the variable's configured icon, a space and the text,
or the raw text when no icon is configured; `trim` or an absent transform
yield the raw trimmed text. -/
theorem claim_c8_transform_semantics (plugin : Plugin) (varName stdout : String) :
    (stdout = "" → applyTransform plugin varName (some "non_empty") stdout =
      lookup plugin.icons "clean") ∧
    (stdout ≠ "" → applyTransform plugin varName (some "non_empty") stdout =
      lookup plugin.icons "dirty") ∧
    (stdout = "" → applyTransform plugin varName (some "with_icon") stdout = none) ∧
    (stdout ≠ "" → ∀ icon, lookup plugin.icons varName = some icon →
      applyTransform plugin varName (some "with_icon") stdout =
        some (icon ++ " " ++ stdout)) ∧
    (stdout ≠ "" → lookup plugin.icons varName = none →
      applyTransform plugin varName (some "with_icon") stdout = some stdout) ∧
    applyTransform plugin varName (some "trim") stdout = some stdout ∧
    applyTransform plugin varName none stdout = some stdout ∧
    (∀ cl tr tim ca raw, executeProviderAsync plugin varName
      (.command cl tr tim ca) (some raw) =
        applyTransform plugin varName tr (strTrim raw)) := by
  refine ⟨?_, ?_, ?_, ?_, ?_, ?_, ?_, ?_⟩
  · intro he; simp [applyTransform, he]
  · intro he; simp [applyTransform, he]
  · intro he; simp [applyTransform, he]
  · intro he icon hicon; simp [applyTransform, he, hicon]
  · intro he hicon; simp [applyTransform, he, hicon]
  · simp [applyTransform]
  · simp [applyTransform]
  · intro cl tr tim ca raw; rfl

/-- Witness for C8: with icon table `branch ↦ "⎇"`, a `with_icon` transform
of the trimmed output "main" renders as the icon, a space and the text. -/
theorem claim_c8_witness :
    applyTransform ⟨⟨"git", ""⟩, [], [("branch", "⎇")], []⟩ "branch"
      (some "with_icon") "main" = some ("⎇" ++ " " ++ "main") :=
  (claim_c8_transform_semantics ⟨⟨"git", ""⟩, [], [("branch", "⎇")], []⟩
    "branch" "main").2.2.2.1 (by decide) "⎇" (by decide)

/-- Counterexample to claim C9 as stated: in a plugin file holding a
well-formed provider entry `good` and a malformed one `bad`, the malformed
entry fails the whole file's deserialization, so nothing of the plugin —
`good` included — is loaded; the claim that a malformed provider entry never
aborts loading of the rest of its plugin is false. -/
theorem claim_c9_counterexample :
    loadFromDirectory [] [mixedEntriesFile] none = [] ∧
    (mixedEntriesFile.entries.filter (fun e => e.parsed.isSome)).length = 1 := by
  exact ⟨by decide, by decide⟩

/-- Claim C9 as amended: a provider file that fails to parse (for instance
because one provider entry is malformed) is skipped as a whole, while all
remaining files continue to load exactly as if the failing file were
absent. -/
theorem claim_c9_amended (plugins : List (String × Plugin))
    (pre post : List PluginFile) (f : PluginFile) (pkg : Option String)
    (hf : parsePluginFile f = none) :
    loadFromDirectory plugins (pre ++ f :: post) pkg =
      loadFromDirectory plugins (pre ++ post) pkg := by
  unfold loadFromDirectory
  rw [List.foldl_append, List.foldl_append, List.foldl_cons]
  congr 1
  by_cases he : f.ext = "toml"
  · simp [he, hf]
  · simp [he]

/-- Witness for C9: dropping the mixed-entry file from a directory listing
does not change the loaded set. -/
theorem claim_c9_witness :
    loadFromDirectory [] ([] ++ mixedEntriesFile :: []) none =
      loadFromDirectory [] ([] ++ []) none :=
  claim_c9_amended [] [] [] mixedEntriesFile none (by decide)

/-- Claim C4: a completing fetch with a successful result writes its key's
cache entry with the expiry its policy dictates (`always` expires at the
completion instant, `never` stores no expiry, a TTL adds itself to the
completion instant) and deregisters itself; a failing fetch deregisters
without touching the cache at all; entries of other keys are never
affected. -/
theorem claim_c4_fetch_completion (f : Fetch) (cache : List (String × CacheEntry))
    (running : List (String × RunningTask)) :
    (∀ v, f.result = some v →
      lookup (applyCompletion f cache running).1 f.key =
        some ⟨v, cacheExpiry f.policy (f.spawnedAt + f.duration)⟩ ∧
      lookup (applyCompletion f cache running).2 f.key = none) ∧
    (f.result = none →
      (applyCompletion f cache running).1 = cache ∧
      lookup (applyCompletion f cache running).2 f.key = none) ∧
    (∀ k, k ≠ f.key →
      lookup (applyCompletion f cache running).1 k = lookup cache k ∧
      lookup (applyCompletion f cache running).2 k = lookup running k) ∧
    cacheExpiry .always (f.spawnedAt + f.duration) = some (f.spawnedAt + f.duration) ∧
    cacheExpiry .never (f.spawnedAt + f.duration) = none ∧
    (∀ d, cacheExpiry (.duration d) (f.spawnedAt + f.duration) =
      some (f.spawnedAt + f.duration + d)) := by
  refine ⟨?_, ?_, ?_, rfl, rfl, fun d => rfl⟩
  · intro v hv
    unfold applyCompletion
    rw [hv]
    exact ⟨lookup_mapInsert_self _ _ _, lookup_mapErase_self _ _⟩
  · intro hv
    unfold applyCompletion
    rw [hv]
    exact ⟨rfl, lookup_mapErase_self _ _⟩
  · intro k hk
    unfold applyCompletion
    cases hv : f.result with
    | some v =>
      exact ⟨lookup_mapInsert_ne _ _ _ _ hk, lookup_mapErase_ne _ _ _ hk⟩
    | none =>
      exact ⟨rfl, lookup_mapErase_ne _ _ _ hk⟩

/-- Witness for C4: a fetch for `p:v` finishing at instant 15 under a
500 ms TTL stores expiry 515 and leaves the registry empty for its key; a
failing fetch preserves the prior cache verbatim. -/
theorem claim_c4_witness :
    lookup (applyCompletion ⟨0, "p:v", 10, 5, some "x", .duration 500⟩ [] []).1 "p:v" =
      some ⟨"x", some 515⟩ ∧
    (applyCompletion ⟨0, "p:v", 10, 5, none, .duration 500⟩
      [("p:v", ⟨"old", none⟩)] []).1 = [("p:v", ⟨"old", none⟩)] :=
  ⟨((claim_c4_fetch_completion ⟨0, "p:v", 10, 5, some "x", .duration 500⟩ [] []).1
      "x" rfl).1,
   ((claim_c4_fetch_completion ⟨0, "p:v", 10, 5, none, .duration 500⟩
      [("p:v", ⟨"old", none⟩)] []).2.1 rfl).1⟩

/-! ## Lemmas for the empty-string guarantee of claim C1 -/

theorem lookup_mapErase_some {β : Type} (m : List (String × β)) (key k : String)
    (v : β) (h : lookup (mapErase m key) k = some v) : lookup m k = some v := by
  by_cases hk : k = key
  · subst hk; rw [lookup_mapErase_self] at h; cases h
  · rwa [lookup_mapErase_ne m key k hk] at h

theorem applyCompletion_cache_ne (f : Fetch) (c : List (String × CacheEntry))
    (r : List (String × RunningTask)) (k : String) (hk : f.key ≠ k) :
    lookup (applyCompletion f c r).1 k = lookup c k := by
  unfold applyCompletion
  cases hv : f.result with
  | some v => exact lookup_mapInsert_ne _ _ _ _ (fun hc => hk hc.symm)
  | none => rfl

theorem applyCompletion_running_some (f : Fetch) (c : List (String × CacheEntry))
    (r : List (String × RunningTask)) (k : String) (rt : RunningTask)
    (h : lookup (applyCompletion f c r).2 k = some rt) : lookup r k = some rt := by
  unfold applyCompletion at h
  cases hv : f.result with
  | some v => rw [hv] at h; exact lookup_mapErase_some r f.key k rt h
  | none => rw [hv] at h; exact lookup_mapErase_some r f.key k rt h

theorem mem_of_mem_insertByCompletion (f x : Fetch) (l : List Fetch)
    (h : x ∈ insertByCompletion f l) : x = f ∨ x ∈ l := by
  induction l with
  | nil =>
    left
    simpa [insertByCompletion] using h
  | cons g gs ih =>
    unfold insertByCompletion at h
    by_cases hc : f.spawnedAt + f.duration < g.spawnedAt + g.duration
    · rw [if_pos hc] at h
      rcases List.mem_cons.mp h with h1 | h1
      · exact Or.inl h1
      · exact Or.inr h1
    · rw [if_neg hc] at h
      rcases List.mem_cons.mp h with h1 | h1
      · right
        rw [h1]
        exact List.mem_cons_self g gs
      · rcases ih h1 with h2 | h2
        · exact Or.inl h2
        · exact Or.inr (List.mem_cons_of_mem g h2)

theorem mem_of_mem_sortByCompletion (x : Fetch) (l : List Fetch)
    (h : x ∈ sortByCompletion l) : x ∈ l := by
  unfold sortByCompletion at h
  induction l with
  | nil => exact absurd h (List.not_mem_nil x)
  | cons g gs ih =>
    simp only [List.foldr_cons] at h
    rcases mem_of_mem_insertByCompletion g x _ h with h1 | h1
    · rw [h1]
      exact List.mem_cons_self g gs
    · exact List.mem_cons_of_mem g (ih h1)

theorem flushUpto_cache_eq (t : Nat) (st : EngineState) :
    (flushUpto t st).cache =
      ((sortByCompletion (st.pending.filter
        (fun f => decide (f.spawnedAt + f.duration < t)))).foldl
        (fun (p : List (String × CacheEntry) × List (String × RunningTask)) f =>
          applyCompletion f p.1 p.2) (st.cache, st.running)).1 := rfl

theorem flushUpto_running_eq (t : Nat) (st : EngineState) :
    (flushUpto t st).running =
      ((sortByCompletion (st.pending.filter
        (fun f => decide (f.spawnedAt + f.duration < t)))).foldl
        (fun (p : List (String × CacheEntry) × List (String × RunningTask)) f =>
          applyCompletion f p.1 p.2) (st.cache, st.running)).2 := rfl

theorem flushUpto_pending_eq (t : Nat) (st : EngineState) :
    (flushUpto t st).pending =
      st.pending.filter (fun f => !decide (f.spawnedAt + f.duration < t)) := rfl

theorem flushFold_cache_ne (k : String) (done : List Fetch)
    (hkeys : ∀ f ∈ done, f.key ≠ k) :
    ∀ (c : List (String × CacheEntry)) (r : List (String × RunningTask)),
      lookup ((done.foldl
        (fun (p : List (String × CacheEntry) × List (String × RunningTask)) f =>
          applyCompletion f p.1 p.2) (c, r))).1 k = lookup c k := by
  induction done with
  | nil => intro c r; rfl
  | cons f fs ih =>
    intro c r
    simp only [List.foldl_cons]
    exact ((ih (fun g hg => hkeys g (List.mem_cons_of_mem f hg))
        (applyCompletion f c r).1 (applyCompletion f c r).2)).trans
      (applyCompletion_cache_ne f c r k (hkeys f (List.mem_cons_self f fs)))

theorem flushFold_running_some (k : String) (rt : RunningTask) (done : List Fetch) :
    ∀ (c : List (String × CacheEntry)) (r : List (String × RunningTask)),
      lookup ((done.foldl
        (fun (p : List (String × CacheEntry) × List (String × RunningTask)) f =>
          applyCompletion f p.1 p.2) (c, r))).2 k = some rt →
      lookup r k = some rt := by
  induction done with
  | nil => intro c r h; exact h
  | cons f fs ih =>
    intro c r h
    simp only [List.foldl_cons] at h
    exact applyCompletion_running_some f c r k rt
      (ih (applyCompletion f c r).1 (applyCompletion f c r).2 h)

theorem stInv_flushUpto (d : Nat) (k : String) (t : Nat) (st : EngineState)
    (h : stInv d k st) (ht : t ≤ d) : stInv d k (flushUpto t st) := by
  obtain ⟨hc, hp, hr⟩ := h
  have hdone : ∀ f ∈ sortByCompletion (st.pending.filter
      (fun f => decide (f.spawnedAt + f.duration < t))), f.key ≠ k := by
    intro f hf hfk
    have hf2 := mem_of_mem_sortByCompletion f _ hf
    obtain ⟨hf3, hf4⟩ := List.mem_filter.mp hf2
    have hlt := of_decide_eq_true hf4
    have hgt := hp f hf3 hfk
    omega
  refine ⟨?_, ?_, ?_⟩
  · rw [flushUpto_cache_eq, flushFold_cache_ne k _ hdone st.cache st.running]
    exact hc
  · intro f hf hfk
    rw [flushUpto_pending_eq] at hf
    exact hp f (List.mem_filter.mp hf).1 hfk
  · intro rt hrt f hf hid
    rw [flushUpto_running_eq] at hrt
    rw [flushUpto_pending_eq] at hf
    exact hr rt (flushFold_running_some k rt _ st.cache st.running hrt) f
      (List.mem_filter.mp hf).1 hid

theorem stInv_consumeRunning (d : Nat) (k key2 : String) (st : EngineState)
    (h : stInv d k st) : stInv d k (consumeRunning key2 st) := by
  obtain ⟨hc, hp, hr⟩ := h
  refine ⟨hc, hp, ?_⟩
  intro rt hrt f hf hid
  exact hr rt (lookup_mapErase_some st.running key2 k rt hrt) f hf hid

theorem stInv_finishFetch (d : Nat) (k : String) (f : Fetch) (st : EngineState)
    (h : stInv d k st) (hk : f.key ≠ k) : stInv d k (finishFetch f st) := by
  obtain ⟨hc, hp, hr⟩ := h
  refine ⟨?_, ?_, ?_⟩
  · show lookup (applyCompletion f st.cache st.running).1 k = none
    rw [applyCompletion_cache_ne f st.cache st.running k hk]
    exact hc
  · intro g hg hgk
    exact hp g (List.mem_filter.mp hg).1 hgk
  · intro rt hrt g hg hid
    exact hr rt (applyCompletion_running_some f st.cache st.running k rt hrt) g
      (List.mem_filter.mp hg).1 hid

theorem phase3Step_empty (d : Nat) (k : String) (acc : WaitAcc) (kt : String × Nat)
    (hs : stInv d k acc.st) (ht : acc.time ≤ d) :
    (stInv d k (phase3Step d acc kt).st ∧ (phase3Step d acc kt).time ≤ d) ∧
    (kt.1 = k → lookup (phase3Step d acc kt).results k = some "") := by
  have hF : stInv d k (flushUpto acc.time acc.st) :=
    stInv_flushUpto d k acc.time acc.st hs ht
  unfold phase3Step
  by_cases h0 : kt.2 = 0
  · rw [if_pos h0]
    refine ⟨⟨hF, ht⟩, ?_⟩
    intro hk1
    dsimp only
    rw [hk1, lookup_mapInsert_self]
    unfold cacheOrEmpty
    rw [hF.1]
    rfl
  · rw [if_neg h0]
    by_cases h1 : d - acc.time = 0
    · rw [if_pos h1]
      refine ⟨⟨hF, ht⟩, ?_⟩
      intro hk1
      dsimp only
      rw [hk1, lookup_mapInsert_self]
      unfold cacheOrEmpty
      rw [hF.1]
      rfl
    · rw [if_neg h1]
      cases hrun : lookup (flushUpto acc.time acc.st).running kt.1 with
      | none =>
        dsimp only
        refine ⟨⟨hF, ht⟩, ?_⟩
        intro hk1
        rw [hk1, lookup_mapInsert_self]
        unfold cacheOrEmpty
        rw [hF.1]
        rfl
      | some rt =>
        dsimp only
        cases hff : findFetchById (flushUpto acc.time acc.st).pending rt.taskId with
        | none =>
          dsimp only
          refine ⟨⟨stInv_consumeRunning d k kt.1 _ hF, ht⟩, ?_⟩
          intro hk1
          rw [hk1, lookup_mapInsert_self]
          unfold cacheOrEmpty
          rw [hF.1]
          rfl
        | some f =>
          dsimp only
          have hfmem : f ∈ (flushUpto acc.time acc.st).pending :=
            List.mem_of_find?_eq_some hff
          have hfid : f.id = rt.taskId := by
            have hp := List.find?_some hff
            exact eq_of_beq hp
          by_cases h2 : f.spawnedAt + f.duration - acc.time ≤ d - acc.time
          · rw [if_pos h2]
            have hCA : f.spawnedAt + f.duration ≤ d := by omega
            have hfkey : f.key ≠ k := by
              intro hfk
              have hgt := hF.2.1 f hfmem hfk
              omega
            have himp : ¬kt.1 = k := by
              intro hk1
              rw [hk1] at hrun
              exact hfkey (hF.2.2 rt hrun f hfmem hfid)
            have hG2 : stInv d k (flushUpto (f.spawnedAt + f.duration)
                (consumeRunning kt.1 (flushUpto acc.time acc.st))) :=
              stInv_flushUpto d k _ _ (stInv_consumeRunning d k kt.1 _ hF) hCA
            have hG3 := stInv_finishFetch d k f _ hG2 hfkey
            cases hres : f.result with
            | some v => exact ⟨⟨hG3, hCA⟩, fun hk1 => absurd hk1 himp⟩
            | none => exact ⟨⟨hG3, hCA⟩, fun hk1 => absurd hk1 himp⟩
          · rw [if_neg h2]
            have hT2 : acc.time + (d - acc.time) ≤ d := by omega
            have hG2 : stInv d k (flushUpto (acc.time + (d - acc.time))
                (consumeRunning kt.1 (flushUpto acc.time acc.st))) :=
              stInv_flushUpto d k _ _ (stInv_consumeRunning d k kt.1 _ hF) hT2
            refine ⟨⟨hG2, hT2⟩, ?_⟩
            intro hk1
            rw [hk1] at hG2
            dsimp only
            rw [hk1, lookup_mapInsert_self]
            unfold cacheOrEmpty
            rw [hG2.1]
            rfl

theorem phase3_empty_result (d : Nat) (k : String) (ts : List (String × Nat)) :
    ∀ acc : WaitAcc, stInv d k acc.st → acc.time ≤ d →
      (stInv d k (ts.foldl (phase3Step d) acc).st ∧
        (ts.foldl (phase3Step d) acc).time ≤ d) ∧
      (k ∈ ts.map (fun kt => kt.1) →
        lookup (ts.foldl (phase3Step d) acc).results k = some "") ∧
      (k ∉ ts.map (fun kt => kt.1) →
        lookup (ts.foldl (phase3Step d) acc).results k = lookup acc.results k) := by
  induction ts with
  | nil =>
    intro acc h1 h2
    exact ⟨⟨h1, h2⟩, fun hmem => absurd hmem (List.not_mem_nil k), fun _ => rfl⟩
  | cons kt rest ih =>
    intro acc h1 h2
    simp only [List.foldl_cons]
    obtain ⟨⟨hst2, htime2⟩, hval⟩ := phase3Step_empty d k acc kt h1 h2
    obtain ⟨hinv2, hmem2, hnot2⟩ := ih (phase3Step d acc kt) hst2 htime2
    refine ⟨hinv2, ?_, ?_⟩
    · intro hmem
      simp only [List.map_cons] at hmem
      by_cases hr : k ∈ rest.map (fun kt2 => kt2.1)
      · exact hmem2 hr
      · have hk1 : kt.1 = k := by
          rcases List.mem_cons.mp hmem with h | h
          · exact h.symm
          · exact absurd h hr
        rw [hnot2 hr]
        exact hval hk1
    · intro hmem
      simp only [List.map_cons] at hmem
      have hne : kt.1 ≠ k := by
        intro hc
        apply hmem
        rw [hc]
        exact List.mem_cons_self _ _
      have hnr : k ∉ rest.map (fun kt2 => kt2.1) :=
        fun hc => hmem (List.mem_cons_of_mem _ hc)
      rw [hnot2 hnr]
      obtain ⟨v, hv⟩ := phase3Step_results d acc kt
      rw [hv, lookup_mapInsert_ne _ _ _ _ (fun hc => hne hc.symm)]

theorem keyFate_scheduled_running (pm : PluginManager)
    (c : List (String × CacheEntry)) (r : List (String × RunningTask))
    (now : Nat) (k : String) (t : Nat)
    (h : keyFate pm c r now k = .scheduled t) : lookup r k = none := by
  unfold keyFate at h
  by_cases h1 : isInternalVariable pm k = true
  · rw [if_pos h1] at h; cases h
  · rw [if_neg h1] at h
    by_cases h2 : (lookup r k).isSome = true
    · rw [if_pos h2] at h; cases h
    · cases hl : lookup r k with
      | none => rfl
      | some rt => rw [hl] at h2; exact absurd rfl h2

theorem spawnVariableTask_cache_eq (pm : PluginManager) (env : String → FetchSpec)
    (now : Nat) (st : EngineState) (key : String) :
    (spawnVariableTask pm env now st key).cache = st.cache := by
  unfold spawnVariableTask
  repeat' split
  all_goals rfl

theorem spawnFold_cache_eq (pm : PluginManager) (env : String → FetchSpec)
    (now : Nat) (ts : List (String × Nat)) :
    ∀ st : EngineState,
      (ts.foldl (fun s kt => spawnVariableTask pm env now s kt.1) st).cache =
        st.cache := by
  induction ts with
  | nil => intro st; rfl
  | cons kt rest ih =>
    intro st
    simp only [List.foldl_cons]
    rw [ih, spawnVariableTask_cache_eq]

theorem spawnVariableTask_spawnInv (pm : PluginManager) (env : String → FetchSpec)
    (now : Nat) (k : String) (s : EngineState) (key2 : String)
    (h : spawnInv k now (env k).duration s) :
    spawnInv k now (env k).duration (spawnVariableTask pm env now s key2) := by
  obtain ⟨h1, h2, h3⟩ := h
  unfold spawnVariableTask
  cases hs : splitKey key2 with
  | none => exact ⟨h1, h2, h3⟩
  | some pv =>
    obtain ⟨pn, vn⟩ := pv
    dsimp only
    cases hp : lookup pm.plugins pn with
    | none => exact ⟨h1, h2, h3⟩
    | some plugin =>
      dsimp only
      cases hpr : lookup plugin.provides vn with
      | none => exact ⟨h1, h2, h3⟩
      | some provider =>
        dsimp only
        refine ⟨?_, ?_, ?_⟩
        · intro f hf hfk
          rcases List.mem_append.mp hf with hf1 | hf1
          · exact h1 f hf1 hfk
          · rw [List.mem_singleton.mp hf1] at hfk ⊢
            simp only at hfk
            refine ⟨rfl, ?_⟩
            show (env key2).duration = (env k).duration
            rw [hfk]
        · intro f hf
          rcases List.mem_append.mp hf with hf1 | hf1
          · exact Nat.lt_succ_of_lt (h2 f hf1)
          · rw [List.mem_singleton.mp hf1]
            exact Nat.lt_succ_self s.nextId
        · intro rt hrt
          by_cases hk2 : key2 = k
          · subst hk2
            rw [lookup_mapInsert_self] at hrt
            have hrt2 : (⟨now, s.nextId⟩ : RunningTask) = rt := Option.some.inj hrt
            constructor
            · rw [← hrt2]
              exact Nat.lt_succ_self s.nextId
            · intro f hf hid
              rcases List.mem_append.mp hf with hf1 | hf1
              · exfalso
                have hlt := h2 f hf1
                rw [hid, ← hrt2] at hlt
                exact Nat.lt_irrefl _ hlt
              · rw [List.mem_singleton.mp hf1]
          · rw [lookup_mapInsert_ne _ _ _ _ (fun hc => hk2 hc.symm)] at hrt
            obtain ⟨hlt, hall⟩ := h3 rt hrt
            constructor
            · exact Nat.lt_succ_of_lt hlt
            · intro f hf hid
              rcases List.mem_append.mp hf with hf1 | hf1
              · exact hall f hf1 hid
              · exfalso
                rw [List.mem_singleton.mp hf1] at hid
                simp only at hid
                omega

theorem spawnFold_spawnInv (pm : PluginManager) (env : String → FetchSpec)
    (now : Nat) (k : String) (ts : List (String × Nat)) :
    ∀ s : EngineState, spawnInv k now (env k).duration s →
      spawnInv k now (env k).duration
        (ts.foldl (fun s2 kt => spawnVariableTask pm env now s2 kt.1) s) := by
  induction ts with
  | nil => intro s h; exact h
  | cons kt rest ih =>
    intro s h
    simp only [List.foldl_cons]
    exact ih _ (spawnVariableTask_spawnInv pm env now k s kt.1 h)

/-- Claim C1 as amended: a requested key appears in the output map unless it
is an internal key whose resolver yields nothing, or a key with an in-flight
task and nothing cached.  The value delivered is the one the claim names:
internal keys carry their resolver's value, in-flight keys whatever is
currently cached (absent when nothing is cached), cache-served keys their
cached value, and every scheduled key receives an entry — the empty string
when nothing resolvable was available in time (nothing cached for the key,
no stray in-flight fetch for it, and a command outliving the shared
deadline). -/
theorem claim_c1_amended (pm : PluginManager) (ctx : String → Option String)
    (env : String → FetchSpec) (st0 : EngineState) (now : Nat) (keys : List String)
    (k : String) (hk : k ∈ keys) :
    (match keyFate pm (resolveState st0 now).cache (resolveState st0 now).running
        now k with
     | .internal =>
         lookup (getVariables pm ctx env st0 now keys).results k =
           getInternalVariable pm ctx k
     | .inflight cached =>
         lookup (getVariables pm ctx env st0 now keys).results k = cached
     | .cachedHit v =>
         lookup (getVariables pm ctx env st0 now keys).results k = some v
     | .scheduled _ =>
         (lookup (getVariables pm ctx env st0 now keys).results k).isSome = true) ∧
    (∀ t, keyFate pm (resolveState st0 now).cache (resolveState st0 now).running
        now k = .scheduled t →
      lookup (resolveState st0 now).cache k = none →
      (∀ f ∈ (resolveState st0 now).pending,
        f.key ≠ k ∧ f.id < (resolveState st0 now).nextId) →
      maxNonzeroTimeout (classifyOf pm st0 now keys).toSpawn < (env k).duration →
      lookup (getVariables pm ctx env st0 now keys).results k = some "") := by
  constructor
  · cases hf : keyFate pm (resolveState st0 now).cache (resolveState st0 now).running
        now k with
    | internal =>
      exact getVariables_lookup_of_internal pm ctx env st0 now keys k hk hf
    | inflight cached =>
      cases cached with
      | some v =>
        exact getVariables_lookup_of_value_some pm ctx env st0 now keys k v hk
          (by unfold classifyValue; rw [hf])
      | none =>
        exact getVariables_lookup_of_value_none pm ctx env st0 now keys k
          (fun hc => by rw [hf] at hc; cases hc)
          (fun t hc => by rw [hf] at hc; cases hc)
          (by unfold classifyValue; rw [hf])
    | cachedHit v =>
      exact getVariables_lookup_of_value_some pm ctx env st0 now keys k v hk
        (by unfold classifyValue; rw [hf])
    | scheduled t =>
      exact getVariables_lookup_isSome_of_scheduled pm ctx env st0 now keys k t hk hf
  · intro t hf hcache hpend hmax
    have hrunB : lookup (resolveState st0 now).running k = none :=
      keyFate_scheduled_running pm _ _ now k t hf
    have hspB : spawnInv k now (env k).duration (resolveState st0 now) := by
      refine ⟨?_, ?_, ?_⟩
      · intro f hfm hfk
        exact absurd hfk (hpend f hfm).1
      · intro f hfm
        exact (hpend f hfm).2
      · intro rt hrt
        rw [hrunB] at hrt
        cases hrt
    have hspC : spawnInv k now (env k).duration
        (stateAfterSpawn pm env st0 now keys) :=
      spawnFold_spawnInv pm env now k (classifyOf pm st0 now keys).toSpawn
        (resolveState st0 now) hspB
    have hcC : lookup (stateAfterSpawn pm env st0 now keys).cache k = none := by
      show lookup ((classifyOf pm st0 now keys).toSpawn.foldl
        (fun s kt => spawnVariableTask pm env now s kt.1)
        (resolveState st0 now)).cache k = none
      rw [spawnFold_cache_eq]
      exact hcache
    have hstC : stInv (now + maxNonzeroTimeout (classifyOf pm st0 now keys).toSpawn)
        k (stateAfterSpawn pm env st0 now keys) := by
      refine ⟨hcC, ?_, ?_⟩
      · intro f hfm hfk
        obtain ⟨hsp, hdur⟩ := hspC.1 f hfm hfk
        rw [hsp, hdur]
        omega
      · intro rt hrt
        exact (hspC.2.2 rt hrt).2
    have hph := phase3_empty_result
      (now + maxNonzeroTimeout (classifyOf pm st0 now keys).toSpawn) k
      (classifyOf pm st0 now keys).toSpawn
      ⟨stateAfterSpawn pm env st0 now keys, now,
        resultsAfterInternal pm ctx (classifyOf pm st0 now keys)⟩
      hstC (Nat.le_add_right now _)
    rw [getVariables_results_eq]
    exact hph.2.1 (mem_toSpawn_keys pm st0 now keys k t hk hf)

/-- Witness for C1: on an empty state the scheduled key `p:v` (100 ms
budget, 1 s command, nothing cached) resolves to the empty string. -/
theorem claim_c1_witness :
    lookup (getVariables cmdPM noCtx slowEnv emptyState 0 ["p:v"]).results "p:v" =
      some "" :=
  (claim_c1_amended cmdPM noCtx slowEnv emptyState 0 ["p:v"] "p:v" (by decide)).2
    100 (by decide) (by decide) (by decide) (by decide)
